import Mathlib

/-!
Verification development for the `function-trace` repository.

The definitions below are a shallow embedding of the two tracer engines of
the repository:

* `FnTrace.Inline`  models `src/runtime/inline-tracer.ts` (`InlineTracer`);
* `FnTrace.Core`    models `src/core/tracer.ts` (`FunctionTracer`);
* `FnTrace.SafeStr` models `InlineTracer.safeStringify` over a heap-based
  value model, so that reference cycles are expressible.

Modelling conventions:
* timestamps (`performance.now()`) are `Int` "time-units"; each public
  operation receives the current clock value as an explicit argument;
* generated call ids (`performance.now().toString(36) + random suffix`)
  are external inputs: the operations receive the freshly generated id as
  a parameter;
* JavaScript `any` payload values (arguments, return values, metadata) are
  modelled by the acyclic value tree `JsVal`; cyclic values, which only
  matter for `safeStringify`, are modelled separately in `SafeStr` by a
  heap of nodes addressed by `Nat`;
* JavaScript `Map`/`Set` (insertion ordered) are association lists /
  lists with membership-tested insertion;
* the JavaScript idiom `x || d` on numbers/strings (falsy on `0`/`""`)
  is modelled by explicit helpers (`jsOrInt`, ...).
-/

namespace FnTrace

/-- Acyclic model of JavaScript runtime values as seen by the tracer. -/
inductive JsVal where
  | null : JsVal
  | undef : JsVal
  | bool (b : Bool) : JsVal
  | num (n : Int) : JsVal
  | str (s : String) : JsVal
  | sym : JsVal
  | func (name : String) : JsVal
  | arr (elems : List JsVal) : JsVal
  | obj (fields : List (String × JsVal)) : JsVal

/-- `true` on values with JavaScript `typeof v === "function"`. -/
def JsVal.isFunc : JsVal → Bool
  | .func _ => true
  | _ => false

/-- Character-list prefix test (model of `String.prototype.startsWith`). -/
def charsPrefixOf : List Char → List Char → Bool
  | [], _ => true
  | _ :: _, [] => false
  | p :: ps, c :: cs => p == c && charsPrefixOf ps cs

/-- `s.startsWith pre` on the underlying character lists. -/
def strStarts (s pre : String) : Bool :=
  charsPrefixOf pre.data s.data

/-- Character-list substring test (model of `String.prototype.includes`). -/
def charsContains (pat : List Char) : List Char → Bool
  | [] => charsPrefixOf pat []
  | c :: cs => charsPrefixOf pat (c :: cs) || charsContains pat cs

/-- `s.includes pat` on the underlying character lists. -/
def strIncludes (s pat : String) : Bool :=
  charsContains pat.data s.data

/-- `String.prototype.split` with a one-character separator. -/
def splitChars (sep : Char) : List Char → List (List Char)
  | [] => [[]]
  | c :: cs =>
    let r := splitChars sep cs
    if c == sep then [] :: r
    else
      match r with
      | [] => [[c]]
      | h :: t => (c :: h) :: t

/-- `filePath.split("/")`. -/
def splitSlash (s : String) : List String :=
  (splitChars '/' s.data).map (fun cs => ⟨cs⟩)

/-- JavaScript `x || d` for numbers wrapped in an option (`undefined` or a
falsy `0` both fall back to `d`). -/
def jsOrInt (o : Option Int) (d : Int) : Int :=
  match o with
  | some x => if x = 0 then d else x
  | none => d

/-- JavaScript `x || d` for a present number (`0` is falsy). -/
def jsOrInt0 (x d : Int) : Int :=
  if x = 0 then d else x

/-- JavaScript `split("/").pop() || filePath`. -/
def popFileName (fp : String) : String :=
  let last := ((splitSlash fp).getLast?).getD ""
  if last = "" then fp else last

/-- Call status (`"active" | "completed" | "error"`). -/
inductive Status where
  | active : Status
  | completed : Status
  | error : Status
deriving DecidableEq

/-- Captured error payload (`{name, message, stack}`). -/
structure ErrInfo where
  name : String
  message : String
  stack : String
deriving DecidableEq

/-- One observed invocation (interface `CallRecord`, shared shape between
`inline-tracer.ts` and `core/types.ts`; `Core` stores its structured
`CallMetadata` as an opaque payload here, the tracers never read it). -/
structure CallRecord where
  id : String
  name : String
  fullPath : String
  filePath : String
  args : List JsVal
  status : Status
  depth : Nat
  startTime : Int
  endTime : Option Int
  duration : Option Int
  parentId : Option String
  childrenIds : List String
  returnValue : JsVal
  error : Option ErrInfo
  metadata : JsVal

/-- Per-file aggregate (`FileStats`); `functions` models the insertion
ordered JavaScript `Set<string>`. -/
structure FileStats where
  filePath : String
  callCount : Nat
  totalDuration : Int
  functions : List String

/-- `Set.prototype.add`: insertion-ordered, membership tested. -/
def setAdd (l : List String) (s : String) : List String :=
  if s ∈ l then l else l ++ [s]

/-- Update the first element satisfying `p` (JavaScript mutation of the
object found by `find`/`Map.get`). -/
def updateFirst (p : α → Bool) (f : α → α) : List α → List α
  | [] => []
  | x :: xs => if p x then f x :: xs else x :: updateFirst p f xs

/-- The additive part of `updateFileStats` applied to one entry. -/
def bumpStats (fs : FileStats) (r : CallRecord) : FileStats :=
  { filePath := fs.filePath
    callCount := fs.callCount + 1
    totalDuration := fs.totalDuration + (r.duration.getD 0)
    functions := setAdd fs.functions r.name }

/-- `updateFileStats` (identical code in both tracers): create the entry
lazily, then `callCount++`, `totalDuration += duration || 0`,
`functions.add(name)`. -/
def updateFileStats (m : List (String × FileStats)) (r : CallRecord) :
    List (String × FileStats) :=
  if m.any (fun e => e.1 == r.filePath) then
    updateFirst (fun e => e.1 == r.filePath) (fun e => (e.1, bumpStats e.2 r)) m
  else
    m ++ [(r.filePath, bumpStats ⟨r.filePath, 0, 0, []⟩ r)]

namespace Inline

/-- Mutable state of an `InlineTracer` instance. -/
structure TracerState where
  callStack : List CallRecord
  callHistory : List CallRecord
  fileStats : List (String × FileStats)
  currentDepth : Nat
  enabled : Bool

/-- Freshly constructed tracer (`new InlineTracer()`). -/
def initState : TracerState :=
  { callStack := [], callHistory := [], fileStats := [], currentDepth := 0
    enabled := true }

/-- `findDirectParent`: top-of-stack, active, same file, started within
50 time-units. -/
def findDirectParent (s : TracerState) (filePath : String) (now : Int) :
    Option CallRecord :=
  match s.callStack.getLast? with
  | none => none
  | some top =>
    if top.status ≠ Status.active then none
    else if top.filePath == filePath && decide (now - top.startTime < 50) then
      some top
    else none

/-- `isLikelyRecursiveCall`: at least 3 active stack records share this
call's name and file. -/
def isLikelyRecursiveCall (s : TracerState) (functionName filePath : String) :
    Bool :=
  3 ≤ s.callStack.countP
    (fun c => c.name == functionName && c.filePath == filePath &&
      c.status == Status.active)

/-- `findNonSameFunctionParent`: nearest (from the top) active record with
a different name. -/
def findNonSameFunctionParent (s : TracerState) (functionName : String) :
    Option CallRecord :=
  s.callStack.reverse.find?
    (fun c => c.status == Status.active && c.name != functionName)

/-- `findNonRecursiveParent`: outside of likely recursion, skip same-named
calls; during likely recursion yield nothing. -/
def findNonRecursiveParent (s : TracerState) (functionName filePath : String) :
    Option CallRecord :=
  if isLikelyRecursiveCall s functionName filePath then none
  else findNonSameFunctionParent s functionName

/-- `isAsyncFunction`: the name contains one of the async marker words. -/
def isAsyncFunction (functionName : String) : Bool :=
  ["Async", "async", "Promise", "await"].any
    (fun pat => strIncludes functionName pat)

/-- `findAsyncBoundaryParent`: nearest active record (from the top) started
more than 100 time-units ago whose name looks asynchronous. -/
def findAsyncBoundaryParent (s : TracerState) (now : Int) :
    Option CallRecord :=
  s.callStack.reverse.find?
    (fun c => c.status == Status.active &&
      decide (100 < now - c.startTime) && isAsyncFunction c.name)

/-- `isReasonableCrossModuleCall`: same directory, or the parent's path has
fewer segments. -/
def isReasonableCrossModuleCall (parentFile childFile : String) : Bool :=
  let parentParts := splitSlash parentFile
  let childParts := splitSlash childFile
  (String.intercalate "/" parentParts.dropLast ==
    String.intercalate "/" childParts.dropLast) ||
  decide (parentParts.length < childParts.length)

/-- `findCrossModuleParent`: nearest active record in a different but
"related" file. -/
def findCrossModuleParent (s : TracerState) (filePath : String) :
    Option CallRecord :=
  s.callStack.reverse.find?
    (fun c => c.status == Status.active && c.filePath != filePath &&
      isReasonableCrossModuleCall c.filePath filePath)

/-- `findFallbackParent`: nearest active record with a different name,
otherwise the oldest active record. -/
def findFallbackParent (s : TracerState) (functionName : String) :
    Option CallRecord :=
  match s.callStack.reverse.find?
      (fun c => c.status == Status.active && c.name != functionName) with
  | some c => some c
  | none => s.callStack.find? (fun c => c.status == Status.active)

/-- `findParentCall`: the ordered policy chain assigning `(parentId, depth)`
to a new call. -/
def findParentCall (s : TracerState) (functionName filePath : String)
    (now : Int) : Option String × Nat :=
  if s.callStack.isEmpty then (none, 0)
  else
    match findDirectParent s filePath now with
    | some p => (some p.id, p.depth + 1)
    | none =>
      match findNonRecursiveParent s functionName filePath with
      | some p => (some p.id, p.depth + 1)
      | none =>
        match findAsyncBoundaryParent s now with
        | some p => (some p.id, p.depth + 1)
        | none =>
          match findCrossModuleParent s filePath with
          | some p => (some p.id, p.depth + 1)
          | none =>
            match findFallbackParent s functionName with
            | some p => (some p.id, p.depth + 1)
            | none =>
              match s.callStack.getLast? with
              | some top =>
                (if top.id = "" then none else some top.id, top.depth + 1)
              | none => (none, 1)

/-- `this.callStack[this.callStack.length - 1]?.id || null`. -/
def topIdOpt (s : TracerState) : Option String :=
  match s.callStack.getLast? with
  | none => none
  | some top => if top.id = "" then none else some top.id

/-- `InlineTracer.enter`: build the record, register it with its parent,
push it, raise the depth counter. -/
def enterFn (s : TracerState) (functionName filePath : String)
    (args : List JsVal) (metadata : JsVal) (now : Int) (callId : String) :
    TracerState × String :=
  if !s.enabled then (s, "")
  else
    let pd := findParentCall s functionName filePath now
    let record : CallRecord :=
      { id := callId
        name := functionName
        fullPath := filePath ++ ":" ++ functionName
        filePath := filePath
        args := args
        status := Status.active
        depth := pd.2
        startTime := now
        endTime := none
        duration := none
        parentId := pd.1
        childrenIds := []
        returnValue := JsVal.undef
        error := none
        metadata := metadata }
    let stack' :=
      match pd.1 with
      | some pid =>
        updateFirst (fun c => c.id == pid)
          (fun c => { c with childrenIds := c.childrenIds ++ [callId] })
          s.callStack
      | none => s.callStack
    ({ s with
        callStack := stack' ++ [record]
        currentDepth := max s.currentDepth pd.2 }, callId)

/-- Index used by `exit`: check the top of stack first, then a full
bottom-up `findIndex`. -/
def exitIdx (s : TracerState) (callId : String) : Option Nat :=
  if s.callStack.getLast?.any (fun c => c.id == callId) then
    some (s.callStack.length - 1)
  else
    s.callStack.findIdx? (fun c => c.id == callId)

/-- Depth counter recomputed from the remaining stack
(`Math.max(...depths, 0)`, or `0` when empty). -/
def recomputeDepth (stack : List CallRecord) : Nat :=
  if stack.isEmpty then 0
  else stack.foldl (fun a c => max a c.depth) 0

/-- The record synthesized by `exit` for an id found nowhere. -/
def supplementRecord (s : TracerState) (callId : String) (rv : JsVal)
    (endTime : Int) : CallRecord :=
  { id := callId
    name := "unknown"
    fullPath := "unknown"
    filePath := "unknown"
    args := []
    status := Status.completed
    depth := s.currentDepth
    startTime := endTime - 1
    endTime := some endTime
    duration := some 1
    parentId := topIdOpt s
    childrenIds := []
    returnValue := rv
    error := none
    metadata := JsVal.undef }

/-- `InlineTracer.exit`: finalize the stack record if present, else the
still-active history record, else synthesize a supplement record. -/
def exitFn (s : TracerState) (callId : String) (rv : JsVal) (now : Int) :
    TracerState :=
  if callId = "" || !s.enabled then s
  else
    match exitIdx s callId with
    | some i =>
      match s.callStack.get? i with
      | none => s
      | some r =>
        let fin := { r with
          endTime := some now
          duration := some (now - r.startTime)
          status := Status.completed
          returnValue := rv }
        let stack' := s.callStack.eraseIdx i
        { s with
          callStack := stack'
          callHistory := s.callHistory ++ [fin]
          fileStats := updateFileStats s.fileStats fin
          currentDepth := recomputeDepth stack' }
    | none =>
      match s.callHistory.find? (fun c => c.id == callId) with
      | some h =>
        if h.status = Status.active then
          let fin := { h with
            endTime := some now
            duration := some (now - h.startTime)
            status := Status.completed
            returnValue := rv }
          { s with
            callHistory :=
              updateFirst (fun c => c.id == callId) (fun c => { c with
                endTime := some now
                duration := some (now - c.startTime)
                status := Status.completed
                returnValue := rv }) s.callHistory
            fileStats := updateFileStats s.fileStats fin }
        else
          let supp := supplementRecord s callId rv now
          { s with
            callHistory := s.callHistory ++ [supp]
            fileStats := updateFileStats s.fileStats supp }
      | none =>
        let supp := supplementRecord s callId rv now
        { s with
          callHistory := s.callHistory ++ [supp]
          fileStats := updateFileStats s.fileStats supp }

/-- `InlineTracer.error`: like the first two resolution steps of `exit`
(status `error`, error payload), with no supplement step. -/
def errorFn (s : TracerState) (callId : String) (e : ErrInfo) (now : Int) :
    TracerState :=
  if callId = "" || !s.enabled then s
  else
    match s.callStack.findIdx? (fun c => c.id == callId) with
    | some i =>
      match s.callStack.get? i with
      | none => s
      | some r =>
        let fin := { r with
          endTime := some now
          duration := some (now - r.startTime)
          status := Status.error
          error := some e }
        let stack' := s.callStack.eraseIdx i
        { s with
          callStack := stack'
          callHistory := s.callHistory ++ [fin]
          fileStats := updateFileStats s.fileStats fin
          currentDepth := recomputeDepth stack' }
    | none =>
      match s.callHistory.find? (fun c => c.id == callId) with
      | some h =>
        if h.status = Status.active then
          let fin := { h with
            endTime := some now
            duration := some (now - h.startTime)
            status := Status.error
            error := some e }
          { s with
            callHistory :=
              updateFirst (fun c => c.id == callId) (fun c => { c with
                endTime := some now
                duration := some (now - c.startTime)
                status := Status.error
                error := some e }) s.callHistory
            fileStats := updateFileStats s.fileStats fin }
        else s
      | none => s

/-- `InlineTracer.getStats` result shape. -/
structure TracerStats where
  totalCalls : Nat
  totalDuration : Int
  averageDuration : Int
  errorCount : Nat
  fileStats : List (String × FileStats)

/-- `InlineTracer.getStats`: counts the history only. -/
def getStats (s : TracerState) : TracerStats :=
  let totalCalls := s.callHistory.length
  let totalDuration :=
    s.callHistory.foldl (fun sum r => sum + r.duration.getD 0) 0
  { totalCalls := totalCalls
    totalDuration := totalDuration
    averageDuration := if 0 < totalCalls then totalDuration / totalCalls else 0
    errorCount := (s.callHistory.filter (fun r => r.error.isSome)).length
    fileStats := s.fileStats }

/-- `InlineTracer.clear` (the enabled flag is left unchanged). -/
def clearFn (s : TracerState) : TracerState :=
  { s with callStack := [], callHistory := [], fileStats := [],
           currentDepth := 0 }

/-- `InlineTracer.enable`. -/
def enableFn (s : TracerState) : TracerState := { s with enabled := true }

/-- `InlineTracer.disable`. -/
def disableFn (s : TracerState) : TracerState := { s with enabled := false }

end Inline

/-- Inner loop of `simplifyValue` over object entries: stop with a
`"..."` marker at 5 kept properties, skip function values and
underscore-prefixed keys. `total` is `Object.keys(value).length`. -/
def simplifyFieldsAux (f : JsVal → JsVal) (total : Nat) :
    Nat → List (String × JsVal) → List (String × JsVal)
  | _, [] => []
  | count, (k, v) :: rest =>
    if 5 ≤ count then
      [("...", JsVal.str ("[" ++ toString (total - 5) ++ " more properties]"))]
    else if v.isFunc || strStarts k "_" then
      simplifyFieldsAux f total count rest
    else
      (k, f v) :: simplifyFieldsAux f total (count + 1) rest

/-- `InlineTracer.simplifyValue`, with the depth counter re-expressed as
remaining fuel: the source checks `depth > 3` and recurses with
`depth + 1` starting from `0`, i.e. fuel `4 - depth`. -/
def simplifyValue : Nat → JsVal → JsVal
  | 0, _ => JsVal.str "[Max Depth]"
  | fuel + 1, v =>
    match v with
    | JsVal.null => JsVal.null
    | JsVal.undef => JsVal.undef
    | JsVal.func _ => JsVal.str "[Function]"
    | JsVal.sym => JsVal.str "[Symbol]"
    | JsVal.bool b => JsVal.bool b
    | JsVal.num n => JsVal.num n
    | JsVal.str s => JsVal.str s
    | JsVal.arr l =>
      if 10 < l.length then
        JsVal.str ("[Array(" ++ toString l.length ++ ")]")
      else
        JsVal.arr ((l.take 10).map (simplifyValue fuel))
    | JsVal.obj fs =>
      JsVal.obj (simplifyFieldsAux (simplifyValue fuel) fs.length 0 fs)

/-- Flat payload of one `TreeNode` of `buildCallTree` (everything except
the child list). -/
structure NodeInfo where
  name : String
  value : Int
  duration : Int
  filePath : String
  symbolSize : Int
  color : String
  callId : String
  startTime : Int
  endTime : Int
  depth : Int
  args : JsVal
  returnValue : JsVal
  status : Status

/-- ECharts tree node (`TreeNode`). -/
inductive TreeNode where
  | mk (info : NodeInfo) (children : List TreeNode)

/-- Payload of a node. -/
def TreeNode.info : TreeNode → NodeInfo
  | .mk i _ => i

/-- Children of a node. -/
def TreeNode.children : TreeNode → List TreeNode
  | .mk _ c => c

/-- Node color from error flag and status. -/
def nodeColor (r : CallRecord) : String :=
  if r.error.isSome then "#ff4d4f"
  else if r.status = Status.completed then "#52c41a"
  else "#1890ff"

/-- The node `buildCallTree` creates for a record (before children are
attached). -/
def nodeOfRecord (r : CallRecord) : NodeInfo :=
  { name := r.name ++ "()"
    value := r.duration.getD 0
    duration := r.duration.getD 0
    filePath := popFileName r.filePath
    symbolSize := max 8 (min 40 ((r.duration.getD 0) / 5 + 10))
    color := nodeColor r
    callId := r.id
    startTime := r.startTime
    endTime := jsOrInt r.endTime r.startTime
    depth := (r.depth : Int)
    args := simplifyValue 4 (JsVal.arr r.args)
    returnValue := simplifyValue 4 r.returnValue
    status := r.status }

namespace Inline

/-- The completed-looking copy of a still-active stack record that
`buildCallTree` snapshots (`endTime: endTime || performance.now()`, ...). -/
def snapshotRecord (r : CallRecord) (now : Int) : CallRecord :=
  { r with
    endTime := some (jsOrInt r.endTime now)
    duration := some (jsOrInt r.duration (now - r.startTime)) }

/-- `allRecords`: the history plus snapshots of stack records whose id is
not already present. -/
def allRecordsOf (s : TracerState) (now : Int) : List CallRecord :=
  s.callStack.foldl
    (fun acc r =>
      if acc.any (fun q => q.id == r.id) then acc
      else acc ++ [snapshotRecord r now])
    s.callHistory

/-- The payload the node map holds for key `k`: the node of the last
record with that id (`Map.set` overwrites).  The id-less fallback is
unreachable, `resolveNode` is only applied to ids of records. -/
def baseInfo (records : List CallRecord) (k : String) : NodeInfo :=
  match records.reverse.find? (fun r => r.id == k) with
  | some r => nodeOfRecord r
  | none =>
    { name := "", value := 0, duration := 0, filePath := "", symbolSize := 0
      color := "", callId := k, startTime := 0, endTime := 0, depth := 0
      args := JsVal.undef, returnValue := JsVal.undef
      status := Status.active }

/-- Materialization of the mutated node graph of `buildCallTree`: the
children of the node at key `k` are, in record order, the nodes of the
records whose `parentId` is `k`.  The fuel argument makes the recursion
structural; `records.length` fuel is provably sufficient whenever the
parent links are well-founded (as they are for engine-produced record
sets). -/
def resolveNode (records : List CallRecord) : Nat → String → TreeNode
  | 0, k => TreeNode.mk (baseInfo records k) []
  | fuel + 1, k =>
    TreeNode.mk (baseInfo records k)
      ((records.filter (fun r => r.parentId == some k)).map
        (fun r => resolveNode records fuel r.id))

/-- The records promoted to roots: `parentId` null, or `parentId` absent
from the node map (orphans). -/
def rootRecs (records : List CallRecord) : List CallRecord :=
  records.filter
    (fun r =>
      match r.parentId with
      | none => true
      | some p => !(records.any (fun q => q.id == p)))

/-- The root node list before sorting. -/
def rootNodesOf (records : List CallRecord) : List TreeNode :=
  (rootRecs records).map (fun r => resolveNode records records.length r.id)

/-- Stable insertion by ascending `startTime` (model of the stable
JavaScript `Array.prototype.sort` with comparator
`(a, b) => (a.startTime || 0) - (b.startTime || 0)`; `x || 0` is the
identity on integers). -/
def insertByStart (x : TreeNode) : List TreeNode → List TreeNode
  | [] => [x]
  | y :: ys =>
    if y.info.startTime < x.info.startTime ∨
       y.info.startTime = x.info.startTime then
      y :: insertByStart x ys
    else x :: y :: ys

/-- Stable sort by ascending `startTime`. -/
def sortByStart : List TreeNode → List TreeNode
  | [] => []
  | x :: xs => insertByStart x (sortByStart xs)

mutual
/-- `sortChildrenByTime` applied to one node: recursively sort every
child list by ascending `startTime`. -/
def sortTree : TreeNode → TreeNode
  | .mk i cs => TreeNode.mk i (sortByStart (sortForest cs))
/-- `sortChildrenByTime` over a node list. -/
def sortForest : List TreeNode → List TreeNode
  | [] => []
  | t :: ts => sortTree t :: sortForest ts
end

/-- Minimum of the root start times (`Math.min(...)`, roots nonempty). -/
def rootsMinStart : List TreeNode → Int
  | [] => 0
  | t :: ts => ts.foldl (fun a n => min a n.info.startTime) t.info.startTime

/-- Maximum of the root end times (`Math.max(...)`, roots nonempty). -/
def rootsMaxEnd : List TreeNode → Int
  | [] => 0
  | t :: ts => ts.foldl (fun a n => max a n.info.endTime) t.info.endTime

/-- The synthetic aggregate node wrapping multiple roots. -/
def virtualRoot (roots : List TreeNode) : TreeNode :=
  let total := roots.foldl (fun a n => a + jsOrInt0 n.info.duration 0) 0
  TreeNode.mk
    { name := "🌳 函数调用总览 (" ++ toString roots.length ++ "个入口)"
      value := total
      duration := total
      filePath := "总览"
      symbolSize := 30
      color := "#1890ff"
      callId := "virtual_root"
      startTime := rootsMinStart roots
      endTime := rootsMaxEnd roots
      depth := -1
      args := JsVal.undef
      returnValue := JsVal.undef
      status := Status.completed }
    roots

/-- Fallback node for a minimum-depth record (`buildTreeByDepth` root:
`symbolSize = max(10, min(40, d/5 + 12))`). -/
def depthRootNode (r : CallRecord) : NodeInfo :=
  { nodeOfRecord r with
    symbolSize := max 10 (min 40 ((r.duration.getD 0) / 5 + 12)) }

/-- Fallback node for a child record (`buildChildrenByDepthAndTime`:
`symbolSize = max(8, min(30, d/3 + 8))`). -/
def depthChildNode (r : CallRecord) : NodeInfo :=
  { nodeOfRecord r with
    symbolSize := max 8 (min 30 ((r.duration.getD 0) / 3 + 8)) }

/-- `buildChildrenByDepthAndTime`: records at exactly `targetDepth` whose
start lies in the parent's time window, recursively expanded and sorted by
start time.  The fuel starts above the maximal record depth, so the
zero-fuel branch is only reached where the filter is empty anyway. -/
def buildChildrenByDepth (records : List CallRecord) (now : Int) :
    Nat → Int → Int → Int → List TreeNode
  | 0, _, _, _ => []
  | fuel + 1, targetDepth, startT, endT =>
    let childRecs := records.filter
      (fun r => ((r.depth : Int)) == targetDepth &&
        decide (startT ≤ r.startTime) && decide (r.startTime ≤ endT))
    sortByStart (childRecs.map
      (fun c => TreeNode.mk (depthChildNode c)
        (buildChildrenByDepth records now fuel (targetDepth + 1)
          c.startTime (jsOrInt c.endTime now))))

/-- `buildTreeByDepth`: group records at the minimum depth as roots and
expand by depth/time windows (fallback used when no root nodes exist). -/
def buildTreeByDepth (records : List CallRecord) (now : Int) :
    List TreeNode :=
  let maxD := records.foldl (fun a r => max a r.depth) 0
  let minD := match records.map (fun r => r.depth) with
    | [] => 0
    | d :: ds => ds.foldl min d
  let rootRecords := records.filter (fun r => r.depth == minD)
  rootRecords.map
    (fun r => TreeNode.mk (depthRootNode r)
      (buildChildrenByDepth records now (maxD + 2) ((r.depth : Int) + 1)
        r.startTime (jsOrInt r.endTime now)))

/-- `buildCallTree` applied to an explicit record list: build all nodes,
attach children / promote orphans, sort, then wrap multiple roots under
the virtual root (or fall back to depth grouping when no root exists). -/
def buildForest (records : List CallRecord) (now : Int) : List TreeNode :=
  if records.isEmpty then []
  else
    let roots := sortByStart (sortForest (rootNodesOf records))
    if roots.isEmpty then buildTreeByDepth records now
    else if roots.length = 1 then roots
    else [virtualRoot roots]

/-- `InlineTracer.buildCallTree`. -/
def buildCallTree (s : TracerState) (now : Int) : List TreeNode :=
  buildForest (allRecordsOf s now) now

end Inline

/-- `true` exactly on `undefined` (JavaScript `v !== undefined` tests). -/
def JsVal.isUndef : JsVal → Bool
  | .undef => true
  | _ => false

/-- `"[Function: " + (value.name || "anonymous") + "]"`. -/
def functionLabel (n : String) : String :=
  if n = "" then "[Function: anonymous]" else "[Function: " ++ n ++ "]"

mutual
/-- One step of `JSON.parse(JSON.stringify(value, replacer))` on the
acyclic value model: the replacer maps functions to a name tag, and JSON
drops `undefined`/symbol members (`none` = omitted in object position). -/
def jsonValOpt : JsVal → Option JsVal
  | .null => some .null
  | .undef => none
  | .bool b => some (.bool b)
  | .num n => some (.num n)
  | .str s => some (.str s)
  | .sym => none
  | .func n => some (.str (functionLabel n))
  | .arr l => some (.arr (jsonArr l))
  | .obj fs => some (.obj (jsonFields fs))
/-- Array elements: omitted members become `null`. -/
def jsonArr : List JsVal → List JsVal
  | [] => []
  | v :: vs => (jsonValOpt v).getD .null :: jsonArr vs
/-- Object entries: omitted members disappear. -/
def jsonFields : List (String × JsVal) → List (String × JsVal)
  | [] => []
  | (k, v) :: rest =>
    match jsonValOpt v with
    | some w => (k, w) :: jsonFields rest
    | none => jsonFields rest
end

/-- `FunctionTracer.defaultSerializer`: pass primitives through, tag
functions, JSON-round-trip objects (on the acyclic model the
non-serializable catch branch is unreachable). -/
def defaultSerializer : JsVal → JsVal
  | .null => .null
  | .undef => .undef
  | .func n => .str (functionLabel n)
  | .arr l => .arr (jsonArr l)
  | .obj fs => .obj (jsonFields fs)
  | .bool b => .bool b
  | .num n => .num n
  | .str s => .str s
  | .sym => .sym

namespace Core

/-- `Required<TracerOptions>`: regular-expression patterns are embedded by
their matching semantics as boolean predicates; the sampling draw
(`Math.random() > samplingRate`) is passed to `enter` as an input. -/
structure Options where
  enabled : Bool
  includeArguments : Bool
  includeReturnValues : Bool
  maxDepth : Nat
  ignorePatterns : List (String → Bool)
  ignoreFiles : List (String → Bool)
  serializer : JsVal → JsVal

/-- The constructor defaults of `FunctionTracer` (`/^console\./` etc. are
anchored-prefix regexes, `/node_modules/` and `/\.min\./` are substring
regexes). -/
def defaultOptions : Options :=
  { enabled := true
    includeArguments := true
    includeReturnValues := true
    maxDepth := 100
    ignorePatterns :=
      [fun n => strStarts n "console.",
       fun n => strStarts n "__TRACER__",
       fun n => strStarts n "Date.",
       fun n => strStarts n "performance.",
       fun n => strStarts n "JSON.",
       fun n => strStarts n "Math."]
    ignoreFiles :=
      [fun f => strIncludes f "node_modules",
       fun f => strIncludes f ".min."]
    serializer := defaultSerializer }

/-- Mutable state of a `FunctionTracer` instance. -/
structure CoreState where
  options : Options
  callStack : List CallRecord
  callHistory : List CallRecord
  fileStats : List (String × FileStats)
  currentDepth : Nat
  enabled : Bool

/-- `new FunctionTracer(options)`. -/
def mkTracer (opts : Options) : CoreState :=
  { options := opts, callStack := [], callHistory := [], fileStats := []
    currentDepth := 0, enabled := opts.enabled }

/-- `FunctionTracer.shouldTrace`. -/
def shouldTrace (s : CoreState) (functionName filePath : String) : Bool :=
  s.enabled &&
  !(s.options.ignoreFiles.any (fun p => p filePath)) &&
  !(s.options.ignorePatterns.any (fun p => p functionName))

/-- `FunctionTracer.enter`: filtering, then a record at the running depth
whose parent is the current stack top. -/
def enterF (s : CoreState) (functionName filePath : String)
    (args : List JsVal) (metadata : JsVal) (sampleReject : Bool) (now : Int)
    (newId : String) : CoreState × String :=
  if !(shouldTrace s functionName filePath) then (s, "")
  else if sampleReject then (s, "")
  else if s.options.maxDepth ≤ s.currentDepth then (s, "")
  else
    let parentId := (s.callStack.getLast?).map (fun c => c.id)
    let record : CallRecord :=
      { id := newId
        name := functionName
        fullPath := filePath ++ ":" ++ functionName
        filePath := filePath
        args := if s.options.includeArguments then
            args.map s.options.serializer else []
        status := Status.active
        depth := s.currentDepth
        startTime := now
        endTime := none
        duration := none
        parentId := parentId
        childrenIds := []
        returnValue := JsVal.undef
        error := none
        metadata := metadata }
    let stack' :=
      match parentId with
      | some pid =>
        updateFirst (fun c => c.id == pid)
          (fun c => { c with childrenIds := c.childrenIds ++ [newId] })
          s.callStack
      | none => s.callStack
    ({ s with
        callStack := stack' ++ [record]
        currentDepth := s.currentDepth + 1 }, newId)

/-- `FunctionTracer.findCallInStack`: scan from the top of the stack. -/
def findCallInStack (l : List CallRecord) (callId : String) : Option Nat :=
  (l.reverse.findIdx? (fun c => c.id == callId)).map
    (fun j => l.length - 1 - j)

/-- `FunctionTracer.exit`: finalize the stack record if found, otherwise
warn and do nothing. -/
def exitF (s : CoreState) (callId : String) (rv : JsVal) (now : Int) :
    CoreState :=
  if callId = "" || !s.enabled then s
  else
    match findCallInStack s.callStack callId with
    | none => s
    | some i =>
      match s.callStack.get? i with
      | none => s
      | some r =>
        let fin := { r with
          endTime := some now
          duration := some (now - r.startTime)
          status := Status.completed
          returnValue :=
            if s.options.includeReturnValues && !rv.isUndef then
              s.options.serializer rv
            else r.returnValue }
        let stack' := s.callStack.eraseIdx i
        { s with
          callStack := stack'
          callHistory := s.callHistory ++ [fin]
          fileStats := updateFileStats s.fileStats fin
          currentDepth := s.currentDepth - 1 }

/-- `FunctionTracer.error`: like `exit` with status `error` and the error
payload. -/
def errorF (s : CoreState) (callId : String) (e : ErrInfo) (now : Int) :
    CoreState :=
  if callId = "" || !s.enabled then s
  else
    match findCallInStack s.callStack callId with
    | none => s
    | some i =>
      match s.callStack.get? i with
      | none => s
      | some r =>
        let fin := { r with
          endTime := some now
          duration := some (now - r.startTime)
          status := Status.error
          error := some e }
        let stack' := s.callStack.eraseIdx i
        { s with
          callStack := stack'
          callHistory := s.callHistory ++ [fin]
          fileStats := updateFileStats s.fileStats fin
          currentDepth := s.currentDepth - 1 }

/-- `FunctionTracer.getStats` result shape. -/
structure CoreStats where
  totalCalls : Nat
  totalDuration : Int
  averageDuration : Int
  slowestCall : Option CallRecord
  fastestCall : Option CallRecord
  errorCount : Nat
  fileStats : List (String × FileStats)

/-- Stable insertion by descending duration (comparator
`(b.duration || 0) - (a.duration || 0)`). -/
def insertByDurDesc (x : CallRecord) : List CallRecord → List CallRecord
  | [] => [x]
  | y :: ys =>
    if x.duration.getD 0 < y.duration.getD 0 then y :: insertByDurDesc x ys
    else x :: y :: ys

/-- Stable sort by descending duration. -/
def sortByDurDesc : List CallRecord → List CallRecord
  | [] => []
  | x :: xs => insertByDurDesc x (sortByDurDesc xs)

/-- `FunctionTracer.getStats`: totals over history plus active stack,
slowest/fastest from the duration-sorted completed records. -/
def getStatsF (s : CoreState) : CoreStats :=
  let completed := s.callHistory
  let totalCalls := (completed ++ s.callStack).length
  let totalDuration := completed.foldl (fun a r => a + r.duration.getD 0) 0
  let durations := sortByDurDesc (completed.filter (fun r => r.duration.isSome))
  { totalCalls := totalCalls
    totalDuration := totalDuration
    averageDuration :=
      if 0 < completed.length then totalDuration / completed.length else 0
    slowestCall := durations.head?
    fastestCall := durations.getLast?
    errorCount := (completed.filter (fun r => r.error.isSome)).length
    fileStats := s.fileStats }

/-- `FunctionTracer.clear` (the enabled flag is left unchanged). -/
def clearF (s : CoreState) : CoreState :=
  { s with callStack := [], callHistory := [], fileStats := [],
           currentDepth := 0 }

/-- `FunctionTracer.setEnabled`. -/
def setEnabledF (s : CoreState) (b : Bool) : CoreState :=
  { s with enabled := b }

end Core

namespace SafeStr

/-- Primitive (non-heap) JavaScript values for the cyclic model. -/
inductive HPrim where
  | hnull : HPrim
  | hundef : HPrim
  | hbool (b : Bool) : HPrim
  | hnum (n : Int) : HPrim
  | hstr (s : String) : HPrim
  | hfunc : HPrim
  | hsym : HPrim

/-- A value is a primitive or a reference into the heap. -/
inductive HVal where
  | prim (p : HPrim) : HVal
  | ref (addr : Nat) : HVal

/-- Heap nodes: arrays, plain objects, and the specially-cased object
kinds (`Date`, `Error`, map/set-likes, DOM nodes). -/
inductive HNode where
  | arrN (elems : List HVal) : HNode
  | objN (fields : List (String × HVal)) : HNode
  | dateN (iso : String) : HNode
  | errN (msg : String) : HNode
  | setLike (ctorName : String) : HNode
  | domN : HNode

/-- A heap maps addresses to nodes (references produced by the host are
never dangling; `none` is a modelling artifact). -/
def Heap := Nat → Option HNode

/-- `true` on function values (`typeof val === "function"`). -/
def HVal.isFuncH : HVal → Bool
  | .prim .hfunc => true
  | _ => false

/-- Property keys skipped by `safeStringify`. -/
def skippedKey (k : String) : Bool :=
  strStarts k "_" || k == "constructor" || k == "prototype" ||
  k == "callStack" || k == "callHistory" || k == "__proto__"

/-- Inner loop of `safeStringify` over object entries: stop with a `"..."`
marker at 20 kept properties, skip function values and blacklisted keys. -/
def stringifyFieldsAux (f : HVal → JsVal) (total : Nat) :
    Nat → List (String × HVal) → List (String × JsVal)
  | _, [] => []
  | count, (k, v) :: rest =>
    if 20 ≤ count then
      [("...", JsVal.str ("[" ++ toString (total - 20) ++ " more properties]"))]
    else if v.isFuncH || skippedKey k then
      stringifyFieldsAux f total count rest
    else
      (k, f v) :: stringifyFieldsAux f total (count + 1) rest

/-- The recursive body of `InlineTracer.safeStringify`, producing the
sanitized structure handed to `JSON.stringify`.  The `depth > 100` cutoff
is re-expressed as fuel `101 - depth`; the `seen` weak-set, added to
before visiting children and removed from afterwards, is modelled by
passing the extended set downwards. -/
def stringifyV (heap : Heap) : Nat → List Nat → HVal → JsVal
  | 0, _, _ => JsVal.str "[Max Depth Exceeded]"
  | fuel + 1, seen, v =>
    match v with
    | .prim .hnull => JsVal.null
    | .prim .hundef => JsVal.undef
    | .prim .hfunc => JsVal.str "[Function]"
    | .prim .hsym => JsVal.str "[Symbol]"
    | .prim (.hbool b) => JsVal.bool b
    | .prim (.hnum n) => JsVal.num n
    | .prim (.hstr s) => JsVal.str s
    | .ref a =>
      if a ∈ seen then JsVal.str "[Circular Reference]"
      else
        match heap a with
        | none => JsVal.undef
        | some .domN => JsVal.str "[DOM Element]"
        | some (.dateN iso) => JsVal.str iso
        | some (.errN m) => JsVal.str ("[Error: " ++ m ++ "]")
        | some (.setLike c) => JsVal.str ("[" ++ c ++ "]")
        | some (.arrN elems) =>
          let res := (elems.take 50).map (stringifyV heap fuel (a :: seen))
          JsVal.arr
            (if 50 < elems.length then
              res ++ [JsVal.str ("[... " ++ toString (elems.length - 50) ++
                " more items]")]
            else res)
        | some (.objN fs) =>
          JsVal.obj
            (stringifyFieldsAux (stringifyV heap fuel (a :: seen))
              fs.length 0 fs)

/-- `safeStringify` entry point (initial depth 0, empty seen set). -/
def safeStringify (heap : Heap) (v : HVal) : JsVal :=
  stringifyV heap 101 [] v

end SafeStr

/-! Projections of the tree structure used to state properties of the
builder output. -/

mutual
/-- All node payloads of a tree, root first. -/
def nodeInfos : TreeNode → List NodeInfo
  | .mk i cs => i :: forestInfos cs
/-- All node payloads of a forest. -/
def forestInfos : List TreeNode → List NodeInfo
  | [] => []
  | t :: ts => nodeInfos t ++ forestInfos ts
end

mutual
/-- All node names of a tree. -/
def treeNames : TreeNode → List String
  | .mk i cs => i.name :: forestNames cs
/-- All node names of a forest. -/
def forestNames : List TreeNode → List String
  | [] => []
  | t :: ts => treeNames t ++ forestNames ts
end

mutual
/-- All node end times of a tree. -/
def treeEnds : TreeNode → List Int
  | .mk i cs => i.endTime :: forestEnds cs
/-- All node end times of a forest. -/
def forestEnds : List TreeNode → List Int
  | [] => []
  | t :: ts => treeEnds t ++ forestEnds ts
end

/-- Parent-to-descendant chains along the child edges materialized by
`resolveNode`: `ChainTo records k k' m` means the node keyed `k'` is
reached from the node keyed `k` by `m` child steps. -/
inductive ChainTo (records : List CallRecord) : String → String → Nat → Prop
  where
  | refl (k : String) : ChainTo records k k 0
  | head {k k1 kend : String} {m : Nat}
      (hr : ∃ r ∈ records, r.parentId = some k ∧ r.id = k1)
      (hc : ChainTo records k1 kend m) : ChainTo records k kend (m + 1)

namespace Inline

/-- One public operation of the inline tracer, performed at clock value
`t`.  The `enter` step carries the producer obligations on the generated
id: ids are collision-resistant across the process lifetime and never
empty. -/
inductive Step : TracerState → Int → TracerState → Prop where
  | enter (s : TracerState) (t : Int) (name fp : String) (args : List JsVal)
      (meta : JsVal) (id : String)
      (hfresh : ∀ r ∈ s.callStack ++ s.callHistory, r.id ≠ id)
      (hne : id ≠ "") :
      Step s t (enterFn s name fp args meta t id).1
  | exit (s : TracerState) (t : Int) (id : String) (rv : JsVal) :
      Step s t (exitFn s id rv t)
  | err (s : TracerState) (t : Int) (id : String) (e : ErrInfo) :
      Step s t (errorFn s id e t)
  | clear (s : TracerState) (t : Int) : Step s t (clearFn s)
  | enable (s : TracerState) (t : Int) : Step s t (enableFn s)
  | disable (s : TracerState) (t : Int) : Step s t (disableFn s)

/-- Reachable engine states, together with a bound on the monotone clock:
`Reach s t` holds when `s` arises from a fresh tracer through operations
performed at nondecreasing clock values, the last one at most `t`. -/
inductive Reach : TracerState → Int → Prop where
  | init (t : Int) : Reach initState t
  | step {s : TracerState} {t : Int} {s' : TracerState} {t' : Int}
      (h : Reach s t) (hle : t ≤ t') (hs : Step s t' s') : Reach s' t'

/-- Every record of the two collections started no later than the
clock. -/
def ClockInvL (stack history : List CallRecord) (t : Int) : Prop :=
  ∀ r ∈ stack ++ history, r.startTime ≤ t

/-- Every record of the two collections with a parent reference has a
parent in them that started at most one time-unit after it. -/
def ParentInvL (stack history : List CallRecord) : Prop :=
  ∀ c ∈ stack ++ history, ∀ pid, c.parentId = some pid →
    ∃ p ∈ stack ++ history, p.id = pid ∧ p.startTime ≤ c.startTime + 1

/-- Every engine-visible record started no later than the clock. -/
def ClockInv (s : TracerState) (t : Int) : Prop :=
  ClockInvL s.callStack s.callHistory t

/-- Every engine-visible record with a parent reference has an
engine-visible parent that started at most one time-unit after it. -/
def ParentInv (s : TracerState) : Prop :=
  ParentInvL s.callStack s.callHistory

/-- The record `exit` produces when it finalizes a stack entry. -/
def finalizeExit (r : CallRecord) (rv : JsVal) (now : Int) : CallRecord :=
  { r with endTime := some now, duration := some (now - r.startTime)
           status := Status.completed, returnValue := rv }

/-- The record `error` produces when it finalizes a stack entry. -/
def finalizeErr (r : CallRecord) (e : ErrInfo) (now : Int) : CallRecord :=
  { r with endTime := some now, duration := some (now - r.startTime)
           status := Status.error, error := some e }

end Inline

/-! Concrete fixtures used by counterexamples and witnesses. -/

/-- A fresh active stack record fixture (as produced by `enter` on the
given name, file, start time and inferred depth). -/
def mkActiveRec (id nm fp : String) (st : Int) (d : Nat)
    (pid : Option String) : CallRecord :=
  { id := id, name := nm, fullPath := fp ++ ":" ++ nm, filePath := fp
    args := [], status := Status.active, depth := d, startTime := st
    endTime := none, duration := none, parentId := pid, childrenIds := []
    returnValue := JsVal.undef, error := none, metadata := JsVal.undef }

/-- Inline tracer after a single `enter("f", "a.ts")` at clock 0. -/
def sOneActive : Inline.TracerState :=
  (Inline.enterFn Inline.initState "f" "a.ts" [] JsVal.undef 0 "X").1

/-- `sOneActive` after `exit` of the unknown id `"zzz"` at clock 0 (the
same millisecond as the enter). -/
def sExitUnknown : Inline.TracerState :=
  Inline.exitFn sOneActive "zzz" JsVal.undef 0

/-- `sOneActive` after the matching `exit` at clock 1: one finalized
history record. -/
def sFinalized : Inline.TracerState :=
  Inline.exitFn sOneActive "X" JsVal.undef 1

/-- `sFinalized` after a duplicate `exit` for the already-finalized id
`"X"` at clock 2. -/
def sDupExit : Inline.TracerState :=
  Inline.exitFn sFinalized "X" JsVal.undef 2

/-- Inline tracer state with a different-named root below three nested
same-named active calls in the same file (the stack of scenario B after
four rapid enters: `main`, then `f` three times). -/
def sRecursion : Inline.TracerState :=
  { callStack :=
      [mkActiveRec "g" "main" "a.ts" 0 0 none,
       mkActiveRec "1" "f" "a.ts" 10 1 (some "g"),
       mkActiveRec "2" "f" "a.ts" 20 2 (some "1"),
       mkActiveRec "3" "f" "a.ts" 30 3 (some "2")]
    callHistory := [], fileStats := [], currentDepth := 3, enabled := true }

/-- Core tracer run: enter `a`, `b`, `c`, out-of-order exit of `b`, then
enter `d` (clocks 0..4). -/
def kAfterB : Core.CoreState :=
  Core.exitF
    ((Core.enterF
      ((Core.enterF
        ((Core.enterF (Core.mkTracer Core.defaultOptions)
          "a" "/t.js" [] JsVal.undef false 0 "A").1)
        "b" "/t.js" [] JsVal.undef false 1 "B").1)
      "c" "/t.js" [] JsVal.undef false 2 "C").1)
    "B" JsVal.undef 3

/-- `kAfterB` after `enter("d")` at clock 4. -/
def kAfterD : Core.CoreState :=
  (Core.enterF kAfterB "d" "/t.js" [] JsVal.undef false 4 "D").1

/-- A heap with a single self-referencing object `{self: <itself>}`. -/
def cyclicHeap : SafeStr.Heap :=
  fun n => if n = 0 then some (.objN [("self", .ref 0)]) else none

/-- Two records agreeing on id, start time and parent reference (the
fields the tracer never mutates after creation). -/
def SameKey (x y : CallRecord) : Prop :=
  x.id = y.id ∧ x.startTime = y.startTime ∧ x.parentId = y.parentId

/-! ## General lemmas -/

theorem mem_of_getLastQ {α : Type _} {l : List α} {a : α}
    (h : l.getLast? = some a) : a ∈ l := by
  cases l with
  | nil => simp at h
  | cons x xs =>
    rw [List.getLast?_eq_getLast (x :: xs) (by simp)] at h
    exact (Option.some.inj h) ▸ List.getLast_mem _

theorem uniqueById {l : List CallRecord}
    (hnd : (l.map (fun c => c.id)).Nodup) {a b : CallRecord}
    (ha : a ∈ l) (hb : b ∈ l) (h : a.id = b.id) : a = b :=
  List.inj_on_of_nodup_map hnd ha hb h

theorem updateFileStats_congr (m : List (String × FileStats))
    (r r' : CallRecord) (hf : r.filePath = r'.filePath)
    (hn : r.name = r'.name) (hd : r.duration = r'.duration) :
    updateFileStats m r = updateFileStats m r' := by
  unfold updateFileStats bumpStats
  rw [hf, hn, hd]

namespace Inline

theorem exitIdx_none (s : TracerState) (callId : String)
    (hstack : ∀ c ∈ s.callStack, c.id ≠ callId) :
    exitIdx s callId = none := by
  unfold exitIdx
  have htop : s.callStack.getLast?.any (fun c => c.id == callId) = false := by
    cases hl : s.callStack.getLast? with
    | none => rfl
    | some t =>
      have ht := hstack t (mem_of_getLastQ hl)
      simp [Option.any, ht]
  have hfind : s.callStack.findIdx? (fun c => c.id == callId) = none :=
    List.findIdx?_eq_none_iff.mpr (fun c hc => by simp [hstack c hc])
  simp [htop, hfind]

theorem resolveStack (l : List CallRecord) (callId : String)
    (hnd : (l.map (fun c => c.id)).Nodup) (r : CallRecord) (hr : r ∈ l)
    (hid : r.id = callId) :
    ∃ i, l.findIdx? (fun c => c.id == callId) = some i ∧
      l.get? i = some r ∧
      l.eraseIdx i = l.filter (fun c => !(c.id == callId)) := by
  induction l with
  | nil => simp at hr
  | cons x xs ih =>
    rw [List.map_cons, List.nodup_cons] at hnd
    by_cases hx : x.id = callId
    · have hrx : r = x := by
        rcases List.mem_cons.mp hr with h | h
        · exact h
        · exact absurd (hx ▸ hid ▸ List.mem_map_of_mem (fun c => c.id) h)
            hnd.1
      have hxs : ∀ c ∈ xs, c.id ≠ callId := by
        intro c hc hc'
        exact hnd.1 (hx ▸ hc' ▸ List.mem_map_of_mem (fun c => c.id) hc)
      refine ⟨0, ?_, ?_, ?_⟩
      · rw [List.findIdx?_cons]; simp [hx]
      · simp [hrx]
      · rw [List.eraseIdx_cons_zero, List.filter_cons]
        simp only [hx, beq_self_eq_true, Bool.not_true, Bool.false_eq_true,
          if_false]
        exact (List.filter_eq_self.mpr (fun a ha => by simp [hxs a ha])).symm
    · have hrxs : r ∈ xs := by
        rcases List.mem_cons.mp hr with h | h
        · exact absurd (h ▸ hid) hx
        · exact h
      obtain ⟨i, hfind, hget, herase⟩ := ih hnd.2 hrxs
      refine ⟨i + 1, ?_, ?_, ?_⟩
      · rw [List.findIdx?_cons]
        simp only [hx, beq_iff_eq, if_neg, decide_eq_true_eq]
        rw [List.findIdx?_succ, hfind]
        simp
      · simpa using hget
      · rw [List.eraseIdx_cons_succ, herase, List.filter_cons]
        simp [hx]

theorem exitIdx_eq (s : TracerState) (callId : String)
    (hnd : (s.callStack.map (fun c => c.id)).Nodup) :
    exitIdx s callId = s.callStack.findIdx? (fun c => c.id == callId) := by
  unfold exitIdx
  cases hl : s.callStack.getLast? with
  | none => simp
  | some t =>
    by_cases ht : t.id = callId
    · have hmem := mem_of_getLastQ hl
      obtain ⟨i, hfind, hget, _⟩ :=
        resolveStack s.callStack callId hnd t hmem ht
      have hlen : s.callStack ≠ [] := fun h => by rw [h] at hl; simp at hl
      have hpos : 0 < s.callStack.length := List.length_pos.mpr hlen
      have h2 : s.callStack.get? (s.callStack.length - 1) = some t := by
        rw [List.get?_eq_getElem?, List.getElem?_eq_getElem
          (by omega : s.callStack.length - 1 < s.callStack.length)]
        rw [← List.getLast_eq_getElem s.callStack hlen]
        rw [List.getLast?_eq_getLast _ hlen] at hl
        exact congrArg some (Option.some.inj hl)
      have hi : i = s.callStack.length - 1 := by
        have hii : i < s.callStack.length := by
          by_contra hge
          rw [List.get?_eq_getElem?, List.getElem?_eq_none (by omega)] at hget
          exact Option.noConfusion hget
        apply List.getElem?_inj hii (List.Nodup.of_map _ hnd)
        rw [← List.get?_eq_getElem?, ← List.get?_eq_getElem?]
        exact hget.trans h2.symm
      simp [ht, hi, hfind]
    · simp only [Option.any]
      rw [if_neg (by simp [ht])]

theorem findDirectParent_mem {s : TracerState} {fp : String} {now : Int}
    {p : CallRecord} (h : findDirectParent s fp now = some p) :
    p ∈ s.callStack := by
  unfold findDirectParent at h
  split at h
  · exact Option.noConfusion h
  · rename_i t hl
    split at h
    · exact Option.noConfusion h
    · split at h
      · exact (Option.some.inj h) ▸ mem_of_getLastQ hl
      · exact Option.noConfusion h

theorem revFind_mem {l : List CallRecord} {p : CallRecord → Bool}
    {c : CallRecord} (h : l.reverse.find? p = some c) : c ∈ l :=
  List.mem_reverse.mp (List.mem_of_find?_eq_some h)

theorem findNonRecursiveParent_mem {s : TracerState} {fn fp : String}
    {p : CallRecord} (h : findNonRecursiveParent s fn fp = some p) :
    p ∈ s.callStack := by
  unfold findNonRecursiveParent at h
  by_cases hrec : isLikelyRecursiveCall s fn fp = true
  · rw [if_pos hrec] at h; exact Option.noConfusion h
  · rw [if_neg hrec] at h
    exact revFind_mem h

theorem findAsyncBoundaryParent_mem {s : TracerState} {now : Int}
    {p : CallRecord} (h : findAsyncBoundaryParent s now = some p) :
    p ∈ s.callStack := revFind_mem h

theorem findCrossModuleParent_mem {s : TracerState} {fp : String}
    {p : CallRecord} (h : findCrossModuleParent s fp = some p) :
    p ∈ s.callStack := revFind_mem h

theorem findFallbackParent_mem {s : TracerState} {fn : String}
    {p : CallRecord} (h : findFallbackParent s fn = some p) :
    p ∈ s.callStack := by
  unfold findFallbackParent at h
  cases hf : s.callStack.reverse.find?
      (fun c => c.status == Status.active && c.name != fn) with
  | some c => rw [hf] at h; exact (Option.some.inj h) ▸ revFind_mem hf
  | none =>
    rw [hf] at h
    exact List.mem_of_find?_eq_some h

theorem length_insertByStart (x : TreeNode) (l : List TreeNode) :
    (insertByStart x l).length = l.length + 1 := by
  induction l with
  | nil => rfl
  | cons y ys ih =>
    unfold insertByStart
    split
    · simp [ih]
    · simp

theorem length_sortByStart (l : List TreeNode) :
    (sortByStart l).length = l.length := by
  induction l with
  | nil => rfl
  | cons x xs ih =>
    unfold sortByStart
    rw [length_insertByStart, ih]
    rfl

theorem length_sortForest (l : List TreeNode) :
    (sortForest l).length = l.length := by
  induction l with
  | nil => rfl
  | cons t ts ih =>
    unfold sortForest
    simp [ih]

theorem buildForest_time_indep (records : List CallRecord) (t1 t2 : Int)
    (hroot : ∃ r ∈ records, r.parentId = none) :
    buildForest records t1 = buildForest records t2 := by
  unfold buildForest
  cases hempty : records.isEmpty with
  | true => simp [hempty]
  | false =>
    simp only [hempty, Bool.false_eq_true, if_false]
    have hmem : ∃ r ∈ rootRecs records, True := by
      obtain ⟨r, hr, hp⟩ := hroot
      exact ⟨r, List.mem_filter.mpr ⟨hr, by simp [hp]⟩, trivial⟩
    have hlen : 0 < (sortByStart (sortForest (rootNodesOf records))).length := by
      rw [length_sortByStart, length_sortForest]
      unfold rootNodesOf
      rw [List.length_map]
      obtain ⟨r, hr, _⟩ := hmem
      exact List.length_pos.mpr (fun hnil => by rw [hnil] at hr; simp at hr)
    have hne :
        (sortByStart (sortForest (rootNodesOf records))).isEmpty = false := by
      cases hl : sortByStart (sortForest (rootNodesOf records)) with
      | nil => rw [hl] at hlen; simp at hlen
      | cons a as => rfl
    rw [hne]
    simp only [Bool.false_eq_true, if_false]

end Inline

theorem updateFirst_fwd (p : CallRecord → Bool) (f : CallRecord → CallRecord)
    (hf : ∀ c, SameKey (f c) c) (l : List CallRecord) :
    ∀ x ∈ updateFirst p f l, ∃ y ∈ l, SameKey x y := by
  induction l with
  | nil => intro x hx; simp [updateFirst] at hx
  | cons a as ih =>
    intro x hx
    unfold updateFirst at hx
    split at hx
    · rcases List.mem_cons.mp hx with h | h
      · exact ⟨a, List.mem_cons_self _ _, h ▸ hf a⟩
      · exact ⟨x, List.mem_cons_of_mem _ h, ⟨rfl, rfl, rfl⟩⟩
    · rcases List.mem_cons.mp hx with h | h
      · exact ⟨a, List.mem_cons_self _ _, h ▸ ⟨rfl, rfl, rfl⟩⟩
      · obtain ⟨y, hy, hk⟩ := ih x h
        exact ⟨y, List.mem_cons_of_mem _ hy, hk⟩

theorem updateFirst_bwd (p : CallRecord → Bool) (f : CallRecord → CallRecord)
    (hf : ∀ c, SameKey (f c) c) (l : List CallRecord) :
    ∀ y ∈ l, ∃ x ∈ updateFirst p f l, SameKey x y := by
  induction l with
  | nil => intro y hy; simp at hy
  | cons a as ih =>
    intro y hy
    unfold updateFirst
    split
    · rcases List.mem_cons.mp hy with h | h
      · exact ⟨f a, List.mem_cons_self _ _, h ▸ hf a⟩
      · exact ⟨y, List.mem_cons_of_mem _ h, ⟨rfl, rfl, rfl⟩⟩
    · rcases List.mem_cons.mp hy with h | h
      · exact ⟨a, List.mem_cons_self _ _, h ▸ ⟨rfl, rfl, rfl⟩⟩
      · obtain ⟨x, hx, hk⟩ := ih y h
        exact ⟨x, List.mem_cons_of_mem _ hx, hk⟩

theorem mem_eraseIdx_or {α : Type _} {l : List α} {x : α} (hx : x ∈ l) :
    ∀ i, x ∈ l.eraseIdx i ∨ l.get? i = some x := by
  induction l with
  | nil => simp at hx
  | cons a as ih =>
    intro i
    cases i with
    | zero =>
      rcases List.mem_cons.mp hx with h | h
      · right; simp [h]
      · left; simpa [List.eraseIdx_cons_zero] using h
    | succ j =>
      rw [List.eraseIdx_cons_succ]
      rcases List.mem_cons.mp hx with h | h
      · left; exact h ▸ List.mem_cons_self _ _
      · rcases ih h j with h2 | h2
        · left; exact List.mem_cons_of_mem _ h2
        · right; simpa using h2

theorem mem_of_eraseIdx {α : Type _} {l : List α} {i : Nat} {x : α}
    (h : x ∈ l.eraseIdx i) : x ∈ l :=
  (List.eraseIdx_sublist l i).mem h

namespace Inline

theorem topIdOpt_sound {s : TracerState} {pid : String}
    (h : topIdOpt s = some pid) : ∃ p ∈ s.callStack, p.id = pid := by
  unfold topIdOpt at h
  split at h
  · exact Option.noConfusion h
  · rename_i t hl
    split at h
    · exact Option.noConfusion h
    · exact ⟨t, mem_of_getLastQ hl, Option.some.inj h⟩

theorem findParentCall_parentMem (s : TracerState) (fn fp : String)
    (now : Int) :
    ∀ pid d, findParentCall s fn fp now = (pid, d) →
      ∀ i, pid = some i → ∃ p ∈ s.callStack, p.id = i := by
  have finish : ∀ p : CallRecord, p ∈ s.callStack →
      ∀ pid d, (some p.id, p.depth + 1) = (pid, d) →
      ∀ i, pid = some i → ∃ q ∈ s.callStack, q.id = i := by
    intro p hp pid d heq i hi
    cases heq
    exact ⟨p, hp, Option.some.inj hi⟩
  intro pid d h
  unfold findParentCall at h
  split at h
  · cases h
    intro i hi
    exact Option.noConfusion hi
  · split at h
    · rename_i p hdp
      exact finish p (findDirectParent_mem hdp) pid d h
    · split at h
      · rename_i p hnr
        exact finish p (findNonRecursiveParent_mem hnr) pid d h
      · split at h
        · rename_i p hab
          exact finish p (findAsyncBoundaryParent_mem hab) pid d h
        · split at h
          · rename_i p hcm
            exact finish p (findCrossModuleParent_mem hcm) pid d h
          · split at h
            · rename_i p hfb
              exact finish p (findFallbackParent_mem hfb) pid d h
            · split at h
              · rename_i top hl
                by_cases hb : top.id = ""
                · rw [if_pos hb] at h
                  cases h
                  intro i hi
                  exact Option.noConfusion hi
                · rw [if_neg hb] at h
                  exact finish top (mem_of_getLastQ hl) pid d h
              · cases h
                intro i hi
                exact Option.noConfusion hi

theorem invL_finalize {stack history : List CallRecord} {t : Int} {i : Nat}
    {r fin : CallRecord}
    (hget : stack.get? i = some r) (hkey : SameKey fin r)
    (hc : ClockInvL stack history t) (hp : ParentInvL stack history) :
    ClockInvL (stack.eraseIdx i) (history ++ [fin]) t ∧
    ParentInvL (stack.eraseIdx i) (history ++ [fin]) := by
  have hrmem : r ∈ stack := List.get?_mem hget
  have htrans : ∀ q ∈ stack ++ history,
      ∃ q' ∈ stack.eraseIdx i ++ (history ++ [fin]),
        q'.id = q.id ∧ q'.startTime = q.startTime := by
    intro q hq
    rcases List.mem_append.mp hq with h | h
    · rcases mem_eraseIdx_or h i with h2 | h2
      · exact ⟨q, List.mem_append.mpr (Or.inl h2), rfl, rfl⟩
      · have hqr : q = r := by
          rw [hget] at h2
          exact (Option.some.inj h2.symm)
        refine ⟨fin, List.mem_append.mpr (Or.inr
          (List.mem_append.mpr (Or.inr (List.mem_singleton_self _)))), ?_, ?_⟩
        · rw [hkey.1, hqr]
        · rw [hkey.2.1, hqr]
    · exact ⟨q, List.mem_append.mpr (Or.inr (List.mem_append.mpr (Or.inl h))),
        rfl, rfl⟩
  constructor
  · intro x hx
    rcases List.mem_append.mp hx with h | h
    · exact hc x (List.mem_append.mpr (Or.inl (mem_of_eraseIdx h)))
    · rcases List.mem_append.mp h with h2 | h2
      · exact hc x (List.mem_append.mpr (Or.inr h2))
      · have hx : x = fin := List.mem_singleton.mp h2
        rw [hx, hkey.2.1]
        exact hc r (List.mem_append.mpr (Or.inl hrmem))
  · intro c hcm pid hpid
    have hchild : ∃ c₀ ∈ stack ++ history,
        c₀.parentId = c.parentId ∧ c₀.startTime = c.startTime := by
      rcases List.mem_append.mp hcm with h | h
      · exact ⟨c, List.mem_append.mpr (Or.inl (mem_of_eraseIdx h)), rfl, rfl⟩
      · rcases List.mem_append.mp h with h2 | h2
        · exact ⟨c, List.mem_append.mpr (Or.inr h2), rfl, rfl⟩
        · have hx : c = fin := List.mem_singleton.mp h2
          exact ⟨r, List.mem_append.mpr (Or.inl hrmem),
            by rw [hx, hkey.2.2], by rw [hx, hkey.2.1]⟩
    obtain ⟨c₀, hc₀, hpar, hst⟩ := hchild
    obtain ⟨p, hpm, hpid', hple⟩ := hp c₀ hc₀ pid (by rw [hpar, hpid])
    obtain ⟨p', hp'm, hp'id, hp'st⟩ := htrans p hpm
    refine ⟨p', hp'm, hp'id.trans hpid', ?_⟩
    rw [hp'st]
    rw [hst] at hple
    exact hple

theorem invL_updateHist {stack history : List CallRecord} {t : Int}
    (p : CallRecord → Bool) (f : CallRecord → CallRecord)
    (hf : ∀ c, SameKey (f c) c)
    (hc : ClockInvL stack history t) (hp : ParentInvL stack history) :
    ClockInvL stack (updateFirst p f history) t ∧
    ParentInvL stack (updateFirst p f history) := by
  constructor
  · intro x hx
    rcases List.mem_append.mp hx with h | h
    · exact hc x (List.mem_append.mpr (Or.inl h))
    · obtain ⟨y, hy, hk⟩ := updateFirst_fwd p f hf history x h
      rw [hk.2.1]
      exact hc y (List.mem_append.mpr (Or.inr hy))
  · intro c hcm pid hpid
    have hchild : ∃ c₀ ∈ stack ++ history,
        c₀.parentId = c.parentId ∧ c₀.startTime = c.startTime := by
      rcases List.mem_append.mp hcm with h | h
      · exact ⟨c, List.mem_append.mpr (Or.inl h), rfl, rfl⟩
      · obtain ⟨y, hy, hk⟩ := updateFirst_fwd p f hf history c h
        exact ⟨y, List.mem_append.mpr (Or.inr hy), hk.2.2.symm, hk.2.1.symm⟩
    obtain ⟨c₀, hc₀, hpar, hst⟩ := hchild
    obtain ⟨q, hqm, hqid, hqle⟩ := hp c₀ hc₀ pid (by rw [hpar, hpid])
    rcases List.mem_append.mp hqm with h | h
    · exact ⟨q, List.mem_append.mpr (Or.inl h), hqid,
        by rw [← hst]; exact hqle⟩
    · obtain ⟨x, hx, hk⟩ := updateFirst_bwd p f hf history q h
      refine ⟨x, List.mem_append.mpr (Or.inr hx), hk.1.trans hqid, ?_⟩
      rw [hk.2.1, ← hst]
      exact hqle

theorem invL_supp {stack history : List CallRecord} {t : Int}
    {supp : CallRecord}
    (hst : supp.startTime = t - 1)
    (hpar : ∀ pid, supp.parentId = some pid → ∃ p ∈ stack, p.id = pid)
    (hc : ClockInvL stack history t) (hp : ParentInvL stack history) :
    ClockInvL stack (history ++ [supp]) t ∧
    ParentInvL stack (history ++ [supp]) := by
  constructor
  · intro x hx
    rcases List.mem_append.mp hx with h | h
    · exact hc x (List.mem_append.mpr (Or.inl h))
    · rcases List.mem_append.mp h with h2 | h2
      · exact hc x (List.mem_append.mpr (Or.inr h2))
      · rw [List.mem_singleton.mp h2, hst]
        omega
  · intro c hcm pid hpid
    have hembed : ∀ q ∈ stack ++ history,
        q ∈ stack ++ (history ++ [supp]) := by
      intro q hq
      rcases List.mem_append.mp hq with h | h
      · exact List.mem_append.mpr (Or.inl h)
      · exact List.mem_append.mpr (Or.inr (List.mem_append.mpr (Or.inl h)))
    rcases List.mem_append.mp hcm with h | h
    · obtain ⟨q, hqm, hqid, hqle⟩ :=
        hp c (List.mem_append.mpr (Or.inl h)) pid hpid
      exact ⟨q, hembed q hqm, hqid, hqle⟩
    · rcases List.mem_append.mp h with h2 | h2
      · obtain ⟨q, hqm, hqid, hqle⟩ :=
          hp c (List.mem_append.mpr (Or.inr h2)) pid hpid
        exact ⟨q, hembed q hqm, hqid, hqle⟩
      · have hcs : c = supp := List.mem_singleton.mp h2
        obtain ⟨p, hpm, hpid'⟩ := hpar pid (by rw [← hcs, hpid])
        refine ⟨p, List.mem_append.mpr (Or.inl hpm), hpid', ?_⟩
        have := hc p (List.mem_append.mpr (Or.inl hpm))
        rw [hcs, hst]
        omega

theorem invL_enter {stack history stack' : List CallRecord}
    {record : CallRecord} {t : Int}
    (hfwd : ∀ x ∈ stack', ∃ y ∈ stack, SameKey x y)
    (hbwd : ∀ y ∈ stack, ∃ x ∈ stack', SameKey x y)
    (hrst : record.startTime = t)
    (hrpar : ∀ pid, record.parentId = some pid → ∃ p ∈ stack, p.id = pid)
    (hc : ClockInvL stack history t) (hp : ParentInvL stack history) :
    ClockInvL (stack' ++ [record]) history t ∧
    ParentInvL (stack' ++ [record]) history := by
  have htrans : ∀ q ∈ stack ++ history,
      ∃ q' ∈ (stack' ++ [record]) ++ history,
        q'.id = q.id ∧ q'.startTime = q.startTime := by
    intro q hq
    rcases List.mem_append.mp hq with h | h
    · obtain ⟨x, hx, hk⟩ := hbwd q h
      exact ⟨x, List.mem_append.mpr (Or.inl (List.mem_append.mpr (Or.inl hx))),
        hk.1, hk.2.1⟩
    · exact ⟨q, List.mem_append.mpr (Or.inr h), rfl, rfl⟩
  constructor
  · intro x hx
    rcases List.mem_append.mp hx with h | h
    · rcases List.mem_append.mp h with h2 | h2
      · obtain ⟨y, hy, hk⟩ := hfwd x h2
        rw [hk.2.1]
        exact hc y (List.mem_append.mpr (Or.inl hy))
      · rw [List.mem_singleton.mp h2, hrst]
    · exact hc x (List.mem_append.mpr (Or.inr h))
  · intro c hcm pid hpid
    rcases List.mem_append.mp hcm with h | h
    · rcases List.mem_append.mp h with h2 | h2
      · obtain ⟨y, hy, hk⟩ := hfwd c h2
        obtain ⟨q, hqm, hqid, hqle⟩ :=
          hp y (List.mem_append.mpr (Or.inl hy)) pid (by rw [← hk.2.2, hpid])
        obtain ⟨q', hq'm, hq'id, hq'st⟩ := htrans q hqm
        refine ⟨q', hq'm, hq'id.trans hqid, ?_⟩
        rw [hq'st, hk.2.1]
        exact hqle
      · have hcr : c = record := List.mem_singleton.mp h2
        obtain ⟨p, hpm, hpid'⟩ := hrpar pid (by rw [← hcr, hpid])
        obtain ⟨p', hp'm, hp'id, hp'st⟩ :=
          htrans p (List.mem_append.mpr (Or.inl hpm))
        refine ⟨p', hp'm, hp'id.trans hpid', ?_⟩
        have := hc p (List.mem_append.mpr (Or.inl hpm))
        rw [hp'st, hcr, hrst]
        omega
    · obtain ⟨q, hqm, hqid, hqle⟩ :=
        hp c (List.mem_append.mpr (Or.inr h)) pid hpid
      obtain ⟨q', hq'm, hq'id, hq'st⟩ := htrans q hqm
      refine ⟨q', hq'm, hq'id.trans hqid, ?_⟩
      rw [hq'st]
      exact hqle

theorem inv_enter (s : TracerState) (t : Int) (n fp : String)
    (args : List JsVal) (meta : JsVal) (id : String)
    (hc : ClockInv s t) (hp : ParentInv s) :
    ClockInv (enterFn s n fp args meta t id).1 t ∧
    ParentInv (enterFn s n fp args meta t id).1 := by
  unfold enterFn
  cases hen : s.enabled with
  | false => simpa [hen] using ⟨hc, hp⟩
  | true =>
    simp only [hen, Bool.not_true, Bool.false_eq_true, if_false]
    rcases hpd : findParentCall s n fp t with ⟨pid, d⟩
    have hrpar : ∀ i, pid = some i → ∃ p ∈ s.callStack, p.id = i :=
      findParentCall_parentMem s n fp t pid d hpd
    cases pid with
    | none =>
      exact invL_enter (fun x hx => ⟨x, hx, rfl, rfl, rfl⟩)
        (fun y hy => ⟨y, hy, rfl, rfl, rfl⟩) rfl
        (fun i hi => Option.noConfusion hi) hc hp
    | some p =>
      refine invL_enter ?_ ?_ rfl (fun i hi => hrpar i hi) hc hp
      · exact updateFirst_fwd (fun c => c.id == p)
          (fun c => { c with childrenIds := c.childrenIds ++ [id] })
          (fun c => ⟨rfl, rfl, rfl⟩) s.callStack
      · exact updateFirst_bwd (fun c => c.id == p)
          (fun c => { c with childrenIds := c.childrenIds ++ [id] })
          (fun c => ⟨rfl, rfl, rfl⟩) s.callStack

theorem inv_exit (s : TracerState) (t : Int) (id : String) (rv : JsVal)
    (hc : ClockInv s t) (hp : ParentInv s) :
    ClockInv (exitFn s id rv t) t ∧ ParentInv (exitFn s id rv t) := by
  unfold exitFn
  split
  · exact ⟨hc, hp⟩
  · split
    · split
      · exact ⟨hc, hp⟩
      · rename_i i hidx r hget
        exact invL_finalize hget ⟨rfl, rfl, rfl⟩ hc hp
    · split
      · rename_i h hfindh
        split
        · exact invL_updateHist _ _ (fun c => ⟨rfl, rfl, rfl⟩) hc hp
        · exact invL_supp rfl
            (fun pid hps => topIdOpt_sound hps) hc hp
      · exact invL_supp rfl
          (fun pid hps => topIdOpt_sound hps) hc hp

theorem inv_error (s : TracerState) (t : Int) (id : String) (e : ErrInfo)
    (hc : ClockInv s t) (hp : ParentInv s) :
    ClockInv (errorFn s id e t) t ∧ ParentInv (errorFn s id e t) := by
  unfold errorFn
  split
  · exact ⟨hc, hp⟩
  · split
    · split
      · exact ⟨hc, hp⟩
      · rename_i i hidx r hget
        exact invL_finalize hget ⟨rfl, rfl, rfl⟩ hc hp
    · split
      · rename_i h hfindh
        split
        · exact invL_updateHist _ _ (fun c => ⟨rfl, rfl, rfl⟩) hc hp
        · exact ⟨hc, hp⟩
      · exact ⟨hc, hp⟩

theorem reach_inv {s : TracerState} {t : Int} (h : Reach s t) :
    ClockInv s t ∧ ParentInv s := by
  induction h with
  | init t =>
    constructor
    · intro r hr; simp [initState] at hr
    · intro c hc; simp [initState] at hc
  | step h hle hs ih =>
    rename_i s₀ t₀ s₁ t₁
    have hc : ClockInv s₀ t₁ := fun r hr => le_trans (ih.1 r hr) hle
    have hp : ParentInv s₀ := ih.2
    cases hs with
    | enter name fp args meta id hfresh hne =>
      exact inv_enter s₀ t₁ name fp args meta id hc hp
    | exit id rv => exact inv_exit s₀ t₁ id rv hc hp
    | err id e => exact inv_error s₀ t₁ id e hc hp
    | clear =>
      constructor
      · intro r hr; simp [clearFn] at hr
      · intro c hcm; simp [clearFn] at hcm
    | enable => exact ⟨hc, hp⟩
    | disable => exact ⟨hc, hp⟩

end Inline

/-! ## Claim C1 -/

/-- Claim C1, as stated, is false for `error`: with `"zzz"` unknown (no
enter ever recorded it and it is on neither the stack nor the history),
`InlineTracer.error` leaves the state unchanged and `getStats().totalCalls`
does not increase — no minimal record is synthesized, contrary to the
claim's "exit (or error)". -/
theorem c1_counterexample :
    (∀ c ∈ sOneActive.callStack, c.id ≠ "zzz") ∧
    sOneActive.callHistory = [] ∧
    Inline.errorFn sOneActive "zzz" ⟨"E", "boom", ""⟩ 5 = sOneActive ∧
    (Inline.getStats
        (Inline.errorFn sOneActive "zzz" ⟨"E", "boom", ""⟩ 5)).totalCalls =
      (Inline.getStats sOneActive).totalCalls :=
  ⟨by decide, rfl, rfl, rfl⟩

/-- Claim C1 (amended: `exit` only): when the id is neither on the active
stack nor still active in history, `InlineTracer.exit` synthesizes the
minimal record — name/file `"unknown"`, `startTime` one unit before
`endTime`, `duration = 1`, `parentId` the current stack top if any —
appends it to history, and `getStats().totalCalls` grows by exactly 1. -/
theorem c1_exit_synthesizes (s : Inline.TracerState) (callId : String)
    (rv : JsVal) (now : Int)
    (hid : callId ≠ "") (hen : s.enabled = true)
    (hstack : ∀ c ∈ s.callStack, c.id ≠ callId)
    (hhist : ∀ r, s.callHistory.find? (fun c => c.id == callId) = some r →
      r.status ≠ Status.active) :
    Inline.exitFn s callId rv now =
      { s with
        callHistory :=
          s.callHistory ++ [Inline.supplementRecord s callId rv now]
        fileStats := updateFileStats s.fileStats
          (Inline.supplementRecord s callId rv now) } ∧
    (Inline.getStats (Inline.exitFn s callId rv now)).totalCalls =
      (Inline.getStats s).totalCalls + 1 ∧
    (Inline.supplementRecord s callId rv now).name = "unknown" ∧
    (Inline.supplementRecord s callId rv now).filePath = "unknown" ∧
    (Inline.supplementRecord s callId rv now).startTime = now - 1 ∧
    (Inline.supplementRecord s callId rv now).endTime = some now ∧
    (Inline.supplementRecord s callId rv now).duration = some 1 ∧
    (Inline.supplementRecord s callId rv now).parentId = Inline.topIdOpt s := by
  have hmain : Inline.exitFn s callId rv now =
      { s with
        callHistory :=
          s.callHistory ++ [Inline.supplementRecord s callId rv now]
        fileStats := updateFileStats s.fileStats
          (Inline.supplementRecord s callId rv now) } := by
    unfold Inline.exitFn
    rw [if_neg (by simp [hid, hen])]
    rw [Inline.exitIdx_none s callId hstack]
    cases hf : s.callHistory.find? (fun c => c.id == callId) with
    | none => simp [Inline.supplementRecord]
    | some h =>
      have := hhist h hf
      simp [this, Inline.supplementRecord]
  refine ⟨hmain, ?_, rfl, rfl, rfl, rfl, rfl, rfl⟩
  rw [hmain]
  simp [Inline.getStats]

/-- Witness for C1 at a concrete input: `exit("nonexistent-id")` on a
state holding one finalized record appends exactly one synthetic record. -/
theorem c1_witness :
    (Inline.getStats
        (Inline.exitFn sFinalized "nonexistent-id" JsVal.undef 9)).totalCalls =
      (Inline.getStats sFinalized).totalCalls + 1 := by
  have hhist : ∀ r, sFinalized.callHistory.find?
      (fun c => c.id == "nonexistent-id") = some r →
      r.status ≠ Status.active := by
    intro r h
    have hnone : sFinalized.callHistory.find?
        (fun c => c.id == "nonexistent-id") = none :=
      List.find?_eq_none.mpr (by decide)
    rw [hnone] at h
    exact Option.noConfusion h
  exact (c1_exit_synthesizes sFinalized "nonexistent-id" JsVal.undef 9
    (by decide) rfl (by decide) hhist).2.1

/-! ## Claim C2 -/

/-- Claim C2, as stated, is false for the inline tracer: after a single
`enter` the active stack holds one record and the history none, yet
`getStats().totalCalls` is 0, not 1. -/
theorem c2_counterexample :
    sOneActive.callHistory.length + sOneActive.callStack.length = 1 ∧
    (Inline.getStats sOneActive).totalCalls = 0 :=
  ⟨by decide, rfl⟩

/-- Claim C2 (amended): `FunctionTracer.getStats` satisfies
`totalCalls = history length + active-stack length` at every state;
`InlineTracer.getStats` instead returns the history length alone, so the
identity holds for it only when the active stack is empty. -/
theorem c2_totalCalls :
    (∀ s : Core.CoreState,
      (Core.getStatsF s).totalCalls =
        s.callHistory.length + s.callStack.length) ∧
    (∀ s : Inline.TracerState,
      (Inline.getStats s).totalCalls = s.callHistory.length) := by
  constructor
  · intro s
    unfold Core.getStatsF
    simp [List.length_append]
  · intro s
    rfl

/-! ## Claim C3 -/

/-- Claim C3, as stated, is false: for an id unknown to the engine,
`exit` synthesizes a minimal history record but `error` does not — on the
fresh state, `error("zzz")` leaves the history empty while `exit("zzz")`
appends one record, so the four-step resolution is not shared. -/
theorem c3_counterexample :
    Inline.errorFn Inline.initState "zzz" ⟨"E", "boom", ""⟩ 5 =
      Inline.initState ∧
    (Inline.exitFn Inline.initState "zzz" JsVal.undef 5).callHistory.length
      = 1 ∧
    Inline.initState.callHistory.length = 0 :=
  ⟨rfl, rfl, rfl⟩

/-- Claim C3 (amended): for an id found on the active stack (the first two
resolution steps), `error` behaves exactly like `exit` — same removed
stack entry, same depth recomputation, same file-stats update — differing
only in the terminal status (`error`) and payload (`{name, message,
stack}` instead of `returnValue`); the supplement step applies to `exit`
only. -/
theorem c3_error_mirrors_exit (s : Inline.TracerState) (callId : String)
    (rv : JsVal) (e : ErrInfo) (now : Int)
    (hnd : (s.callStack.map (fun c => c.id)).Nodup)
    (hen : s.enabled = true) (hid : callId ≠ "")
    (r : CallRecord) (hr : r ∈ s.callStack) (hrid : r.id = callId) :
    Inline.exitFn s callId rv now =
      { s with
        callStack := s.callStack.filter (fun c => !(c.id == callId))
        callHistory := s.callHistory ++ [Inline.finalizeExit r rv now]
        fileStats := updateFileStats s.fileStats (Inline.finalizeExit r rv now)
        currentDepth := Inline.recomputeDepth
          (s.callStack.filter (fun c => !(c.id == callId))) } ∧
    Inline.errorFn s callId e now =
      { s with
        callStack := s.callStack.filter (fun c => !(c.id == callId))
        callHistory := s.callHistory ++ [Inline.finalizeErr r e now]
        fileStats := updateFileStats s.fileStats (Inline.finalizeErr r e now)
        currentDepth := Inline.recomputeDepth
          (s.callStack.filter (fun c => !(c.id == callId))) } ∧
    (Inline.exitFn s callId rv now).fileStats =
      (Inline.errorFn s callId e now).fileStats := by
  obtain ⟨i, hfind, hget, herase⟩ :=
    Inline.resolveStack s.callStack callId hnd r hr hrid
  have hexit : Inline.exitFn s callId rv now =
      { s with
        callStack := s.callStack.filter (fun c => !(c.id == callId))
        callHistory := s.callHistory ++ [Inline.finalizeExit r rv now]
        fileStats := updateFileStats s.fileStats (Inline.finalizeExit r rv now)
        currentDepth := Inline.recomputeDepth
          (s.callStack.filter (fun c => !(c.id == callId))) } := by
    unfold Inline.exitFn
    rw [if_neg (by simp [hid, hen])]
    rw [Inline.exitIdx_eq s callId hnd, hfind]
    simp only []
    rw [hget]
    simp only [herase]
    rfl
  have herr : Inline.errorFn s callId e now =
      { s with
        callStack := s.callStack.filter (fun c => !(c.id == callId))
        callHistory := s.callHistory ++ [Inline.finalizeErr r e now]
        fileStats := updateFileStats s.fileStats (Inline.finalizeErr r e now)
        currentDepth := Inline.recomputeDepth
          (s.callStack.filter (fun c => !(c.id == callId))) } := by
    unfold Inline.errorFn
    rw [if_neg (by simp [hid, hen])]
    rw [hfind]
    simp only []
    rw [hget]
    simp only [herase]
    rfl
  refine ⟨hexit, herr, ?_⟩
  rw [hexit, herr]
  exact updateFileStats_congr _ _ _ rfl rfl rfl

/-- Witness for C3 at a concrete input: finalizing the single active
record by `exit` and by `error` yields one history record either way. -/
theorem c3_witness :
    (Inline.exitFn sOneActive "X" (JsVal.num 1) 7).callHistory.length = 1 ∧
    (Inline.errorFn sOneActive "X" ⟨"E", "m", ""⟩ 7).callHistory.length = 1 := by
  have h := c3_error_mirrors_exit sOneActive "X" (JsVal.num 1) ⟨"E", "m", ""⟩ 7
    (by decide) rfl (by decide) (mkActiveRec "X" "f" "a.ts" 0 0 none)
    (List.mem_singleton_self _) rfl
  rw [h.1, h.2.1]
  exact ⟨by decide, by decide⟩

/-! ## Claim C4 -/

/-- Claim C4, as stated, is false: a duplicate `exit` for the
already-finalized id `"X"` is not a no-op — it appends a second
(synthetic) history record with the same id and changes the state. -/
theorem c4_counterexample :
    sFinalized.callHistory.length = 1 ∧
    sDupExit.callHistory.length = 2 ∧
    sDupExit.callHistory.map (fun r => r.id) = ["X", "X"] ∧
    sDupExit ≠ sFinalized := by
  refine ⟨by decide, by decide, by decide, ?_⟩
  intro h
  have h2 := congrArg (fun st => st.callHistory.length) h
  exact absurd h2 (by decide)

/-- Claim C4 (amended): a duplicate `error` for a finalized id is a no-op
on the inline tracer, and duplicate `exit`/`error` are no-ops on
`FunctionTracer` (which only searches its stack and warns); only the
inline `exit` deviates by synthesizing a supplement record. -/
theorem c4_duplicates_noop (s : Inline.TracerState) (cs : Core.CoreState)
    (callId callId' : String) (rv' : JsVal) (e e' : ErrInfo) (now now' : Int)
    (hstack : ∀ c ∈ s.callStack, c.id ≠ callId)
    (hhist : ∀ r, s.callHistory.find? (fun c => c.id == callId) = some r →
      r.status ≠ Status.active)
    (hcs : ∀ c ∈ cs.callStack, c.id ≠ callId') :
    Inline.errorFn s callId e now = s ∧
    Core.exitF cs callId' rv' now' = cs ∧
    Core.errorF cs callId' e' now' = cs := by
  have hfind : s.callStack.findIdx? (fun c => c.id == callId) = none :=
    List.findIdx?_eq_none_iff.mpr (fun c hc => by simp [hstack c hc])
  have hcore : Core.findCallInStack cs.callStack callId' = none := by
    unfold Core.findCallInStack
    rw [List.findIdx?_eq_none_iff.mpr
      (fun c hc => by simp [hcs c (List.mem_reverse.mp hc)])]
    rfl
  refine ⟨?_, ?_, ?_⟩
  · by_cases h0 : callId = "" ∨ s.enabled = false
    · unfold Inline.errorFn
      rw [if_pos (by rcases h0 with h | h <;> simp [h])]
    · push_neg at h0
      unfold Inline.errorFn
      rw [if_neg (by simp [h0.1, h0.2])]
      rw [hfind]
      cases hf : s.callHistory.find? (fun c => c.id == callId) with
      | none => rfl
      | some h => simp [hhist h hf]
  · by_cases h0 : callId' = "" ∨ cs.enabled = false
    · unfold Core.exitF
      rw [if_pos (by rcases h0 with h | h <;> simp [h])]
    · push_neg at h0
      unfold Core.exitF
      rw [if_neg (by simp [h0.1, h0.2]), hcore]
  · by_cases h0 : callId' = "" ∨ cs.enabled = false
    · unfold Core.errorF
      rw [if_pos (by rcases h0 with h | h <;> simp [h])]
    · push_neg at h0
      unfold Core.errorF
      rw [if_neg (by simp [h0.1, h0.2]), hcore]

/-- Witness for C4 at concrete inputs: duplicate `error` on the finalized
inline state and duplicate `exit`/`error` on the core state are no-ops. -/
theorem c4_witness :
    Inline.errorFn sFinalized "X" ⟨"E", "m", ""⟩ 9 = sFinalized ∧
    Core.exitF kAfterB "B" JsVal.undef 9 = kAfterB ∧
    Core.errorF kAfterB "B" ⟨"E", "m", ""⟩ 9 = kAfterB := by
  have hhist : ∀ r, sFinalized.callHistory.find? (fun c => c.id == "X") =
      some r → r.status ≠ Status.active := by
    intro r h
    have hfr : sFinalized.callHistory.find? (fun c => c.id == "X") =
        some (Inline.finalizeExit (mkActiveRec "X" "f" "a.ts" 0 0 none)
          JsVal.undef 1) := rfl
    rw [hfr] at h
    cases Option.some.inj h
    decide
  exact c4_duplicates_noop sFinalized kAfterB "X" "B" JsVal.undef
    ⟨"E", "m", ""⟩ ⟨"E", "m", ""⟩ 9 9 (by decide) hhist (by decide)

/-! ## Claim C6 -/

/-- Claim C6, as stated, is false: with three active same-named records
above a different-named root in the same file, and a fourth `enter` of the
same name arriving within the 50-unit adjacency window, the direct-parent
policy fires first and attaches the call to its immediate same-name
predecessor (`"3"`), not to the different-named ancestor (`"g"`). -/
theorem c6_counterexample :
    3 ≤ sRecursion.callStack.countP
      (fun c => c.name == "f" && c.filePath == "a.ts" &&
        c.status == Status.active) ∧
    (sRecursion.callStack.filter (fun c => c.id == "3")).map
      (fun c => c.name) = ["f"] ∧
    Inline.findParentCall sRecursion "f" "a.ts" 40 = (some "3", 4) := by
  refine ⟨by decide, by decide, by decide⟩

/-- Claim C6 (amended): recursion suppression applies only after direct
adjacency fails.  If at least 3 active records share the new call's name
and file, the top of stack is at least 50 time-units old, and no stack
record has an async-marker name or a different file, then the engine
selects the nearest different-named active record — so the 4th slow
nested enter attaches to the different-named ancestor, not to its
immediate same-name predecessor. -/
theorem c6_recursion_suppression (g f1 f2 f3 : CallRecord)
    (s : Inline.TracerState) (fname fp : String) (now : Int)
    (hs : s.callStack = [g, f1, f2, f3])
    (hga : g.status = Status.active) (h1a : f1.status = Status.active)
    (h2a : f2.status = Status.active) (h3a : f3.status = Status.active)
    (hgn : g.name ≠ fname) (h1n : f1.name = fname) (h2n : f2.name = fname)
    (h3n : f3.name = fname)
    (hgf : g.filePath = fp) (h1f : f1.filePath = fp) (h2f : f2.filePath = fp)
    (h3f : f3.filePath = fp)
    (hnag : Inline.isAsyncFunction g.name = false)
    (hna1 : Inline.isAsyncFunction f1.name = false)
    (hna2 : Inline.isAsyncFunction f2.name = false)
    (hna3 : Inline.isAsyncFunction f3.name = false)
    (h50 : 50 ≤ now - f3.startTime) :
    Inline.findParentCall s fname fp now = (some g.id, g.depth + 1) := by
  have hnotlt : ¬(now - f3.startTime < 50) := by omega
  have hdp : Inline.findDirectParent s fp now = none := by
    unfold Inline.findDirectParent
    rw [hs]
    simp [h3a, h3f, hnotlt]
  have hlik : Inline.isLikelyRecursiveCall s fname fp = true := by
    unfold Inline.isLikelyRecursiveCall
    rw [hs]
    simp [List.countP_cons, h1n, h2n, h3n, h1f, h2f, h3f, h1a, h2a, h3a, hgn]
  have hnr : Inline.findNonRecursiveParent s fname fp = none := by
    unfold Inline.findNonRecursiveParent
    rw [if_pos hlik]
  have hab : Inline.findAsyncBoundaryParent s now = none := by
    unfold Inline.findAsyncBoundaryParent
    rw [hs]
    simp [List.find?, hnag, hna1, hna2, hna3]
  have hcm : Inline.findCrossModuleParent s fp = none := by
    unfold Inline.findCrossModuleParent
    rw [hs]
    simp [List.find?, hgf, h1f, h2f, h3f]
  have hfb : Inline.findFallbackParent s fname = some g := by
    unfold Inline.findFallbackParent
    rw [hs]
    have hgbne : (g.name != fname) = true := bne_iff_ne.mpr hgn
    simp [List.find?, h1n, h2n, h3n, hga, h1a, h2a, h3a, hgbne]
  unfold Inline.findParentCall
  rw [hs]
  simp only [List.isEmpty_cons, Bool.false_eq_true, if_false]
  rw [hdp, hnr, hab, hcm, hfb]

/-- Witness for C6 at a concrete input: the 4th slow nested enter of `f`
attaches to the different-named root `main` with depth 1. -/
theorem c6_witness :
    Inline.findParentCall sRecursion "f" "a.ts" 90 = (some "g", 1) :=
  c6_recursion_suppression
    (mkActiveRec "g" "main" "a.ts" 0 0 none)
    (mkActiveRec "1" "f" "a.ts" 10 1 (some "g"))
    (mkActiveRec "2" "f" "a.ts" 20 2 (some "1"))
    (mkActiveRec "3" "f" "a.ts" 30 3 (some "2"))
    sRecursion "f" "a.ts" 90 rfl rfl rfl rfl rfl (by decide) rfl rfl rfl
    rfl rfl rfl rfl (by decide) (by decide) (by decide) (by decide)
    (by decide)

/-! ## Claim C7 -/

/-- Claim C7, as stated, is false for `FunctionTracer`: after the
out-of-order completion of `b`, the running depth counter is 2, so the
next `enter` (`d`) records depth 2 while its assigned parent (`c`) also
has depth 2 — the new record's depth is not parent depth + 1. -/
theorem c7_counterexample :
    kAfterD.callStack.map (fun r => (r.id, r.depth, r.parentId)) =
      [("A", 0, none), ("C", 2, some "B"), ("D", 2, some "C")] ∧
    kAfterD.callStack.any (fun d => kAfterD.callStack.any
      (fun c => d.parentId == some c.id && d.depth != c.depth + 1)) = true :=
  ⟨by decide, by decide⟩

/-- Claim C7 (amended): for the inline tracer's causal inference the
claim holds — whenever the stack ids are distinct and nonempty (as the
engine guarantees), `findParentCall` yields depth 0 exactly for a null
parent, and otherwise the depth of the stack record it references plus
one. -/
theorem c7_depth_parent (s : Inline.TracerState)
    (functionName filePath : String) (now : Int)
    (hnd : (s.callStack.map (fun c => c.id)).Nodup)
    (hne : ∀ c ∈ s.callStack, c.id ≠ "") :
    ∀ pid d, Inline.findParentCall s functionName filePath now = (pid, d) →
      (pid = none → d = 0) ∧
      (∀ i p, pid = some i → p ∈ s.callStack → p.id = i →
        d = p.depth + 1) := by
  have finish : ∀ p : CallRecord, p ∈ s.callStack →
      ∀ pid d, (some p.id, p.depth + 1) = (pid, d) →
      (pid = none → d = 0) ∧
      (∀ i p', pid = some i → p' ∈ s.callStack → p'.id = i →
        d = p'.depth + 1) := by
    intro p hp pid d heq
    cases heq
    constructor
    · intro hc; exact Option.noConfusion hc
    · intro i p' hi hp' hid
      have hpp : p' = p :=
        uniqueById hnd hp' hp (by rw [hid, Option.some.inj hi])
      rw [hpp]
  intro pid d h
  unfold Inline.findParentCall at h
  split at h
  · cases h
    refine ⟨fun _ => rfl, ?_⟩
    intro i p hi
    exact Option.noConfusion hi
  · rename_i hemp
    split at h
    · rename_i p hdp
      exact finish p (Inline.findDirectParent_mem hdp) pid d h
    · split at h
      · rename_i p hnr
        exact finish p (Inline.findNonRecursiveParent_mem hnr) pid d h
      · split at h
        · rename_i p hab
          exact finish p (Inline.findAsyncBoundaryParent_mem hab) pid d h
        · split at h
          · rename_i p hcm
            exact finish p (Inline.findCrossModuleParent_mem hcm) pid d h
          · split at h
            · rename_i p hfb
              exact finish p (Inline.findFallbackParent_mem hfb) pid d h
            · split at h
              · rename_i top hl
                rw [if_neg (hne top (mem_of_getLastQ hl))] at h
                exact finish top (mem_of_getLastQ hl) pid d h
              · rename_i hl
                exfalso
                apply hemp
                cases hs : s.callStack with
                | nil => rfl
                | cons x xs => rw [hs] at hl; simp at hl

/-- Witness for C7 at a concrete input: entering `g` above the single
active record `f` assigns parent `"X"` and depth `0 + 1`. -/
theorem c7_witness :
    (some "X" = (none : Option String) → 1 = 0) ∧
    (∀ i p, some "X" = some i → p ∈ sOneActive.callStack → p.id = i →
      1 = p.depth + 1) :=
  c7_depth_parent sOneActive "g" "b.ts" 3 (by decide) (by decide)
    (some "X") 1 (by decide)

/-! ## Claim C8 -/

/-- The state after `enter("f","a.ts")` at clock 0 is reachable. -/
theorem reach_sOneActive : Inline.Reach sOneActive 0 :=
  Inline.Reach.step (Inline.Reach.init 0) le_rfl
    (Inline.Step.enter Inline.initState 0 "f" "a.ts" [] JsVal.undef "X"
      (by intro r hr; simp [Inline.initState] at hr) (by decide))

/-- The state after additionally `exit("zzz")` at clock 0 is reachable. -/
theorem reach_sExitUnknown : Inline.Reach sExitUnknown 0 :=
  Inline.Reach.step reach_sOneActive le_rfl
    (Inline.Step.exit sOneActive 0 "zzz" JsVal.undef)

/-- Claim C8, as stated, is false: when `exit` of an unknown id runs in
the same time-unit as the `enter` of the active record, the synthesized
record starts one unit before its `endTime`, i.e. strictly before its
parent (the active-stack top) — the referenced parent's `startTime` is
greater than the child's at this reachable state. -/
theorem c8_counterexample :
    Inline.Reach sExitUnknown 0 ∧
    ∃ c ∈ sExitUnknown.callHistory, ∃ pid, c.parentId = some pid ∧
      ∀ p ∈ sExitUnknown.callStack ++ sExitUnknown.callHistory,
        p.id = pid → c.startTime < p.startTime :=
  ⟨reach_sExitUnknown,
    sExitUnknown.callHistory.get ⟨0, by decide⟩, List.get_mem _ _ _,
    "X", by decide, by decide⟩

/-- Claim C8 (amended): at every reachable state, every history record
with a non-null `parentId` has an engine-visible record with that id
whose `startTime` is at most the child's `startTime` plus one time-unit
(records created by `enter` satisfy the exact inequality; synthesized
records can start one unit before a parent entered in the same unit). -/
theorem c8_parent_start_slack {s : Inline.TracerState} {t : Int}
    (h : Inline.Reach s t) :
    ∀ c ∈ s.callHistory, ∀ pid, c.parentId = some pid →
      ∃ p ∈ s.callStack ++ s.callHistory,
        p.id = pid ∧ p.startTime ≤ c.startTime + 1 := by
  intro c hcm pid hpid
  exact (Inline.reach_inv h).2 c (List.mem_append.mpr (Or.inr hcm)) pid hpid

/-- Witness for C8 at a concrete reachable state: the synthesized record's
parent `"X"` is found within the one-unit slack. -/
theorem c8_witness :
    ∃ p ∈ sExitUnknown.callStack ++ sExitUnknown.callHistory,
      p.id = "X" ∧ p.startTime ≤
        (sExitUnknown.callHistory.get ⟨0, by decide⟩).startTime + 1 :=
  c8_parent_start_slack reach_sExitUnknown
    (sExitUnknown.callHistory.get ⟨0, by decide⟩)
    (List.get_mem _ _ _) "X" (by decide)

/-! ## Claim C9 -/

/-- Claim C9, as stated, is false: with one still-active record, the
builder snapshots the record's end time from the current clock, so two
invocations against the unchanged record set (no intervening
enter/exit/error/clear) at clock 1 and clock 2 yield different trees. -/
theorem c9_counterexample :
    Inline.buildCallTree sOneActive 1 ≠ Inline.buildCallTree sOneActive 2 := by
  intro h
  have h2 := congrArg forestEnds h
  rw [show forestEnds (Inline.buildCallTree sOneActive 1) = [1] from by decide,
      show forestEnds (Inline.buildCallTree sOneActive 2) = [2] from by decide]
    at h2
  exact absurd h2 (by decide)

/-- Claim C9 (amended): when no record is still active (the active stack
is empty) and some history record is a root, the call tree built from the
unchanged record set is independent of the clock — two invocations yield
equal (deep-equal) results. -/
theorem c9_idempotent (s : Inline.TracerState) (t1 t2 : Int)
    (hstack : s.callStack = [])
    (hroot : ∃ r ∈ s.callHistory, r.parentId = none) :
    Inline.buildCallTree s t1 = Inline.buildCallTree s t2 := by
  unfold Inline.buildCallTree
  have hall : ∀ t : Int, Inline.allRecordsOf s t = s.callHistory := by
    intro t
    unfold Inline.allRecordsOf
    rw [hstack]
    rfl
  rw [hall t1, hall t2]
  exact Inline.buildForest_time_indep s.callHistory t1 t2 hroot

/-- Witness for C9 at a concrete input: with the single finalized record,
building at clock 5 and at clock 9 agrees. -/
theorem c9_witness :
    Inline.buildCallTree sFinalized 5 = Inline.buildCallTree sFinalized 9 :=
  c9_idempotent sFinalized 5 9 rfl
    ⟨sFinalized.callHistory.get ⟨0, by decide⟩, List.get_mem _ _ _, by decide⟩

/-! ## Claim C10 -/

/-- Claim C10: the serialization guard never recurses into a
self-referencing object — the visited set replaces the inner occurrence
with the circular marker, and the (total) sanitization returns a value
for every input, including cyclic structures. -/
theorem c10_circular_guard (heap : SafeStr.Heap) (a : Nat) (k : String)
    (hheap : heap a = some (.objN [(k, .ref a)]))
    (hk : SafeStr.skippedKey k = false) :
    SafeStr.safeStringify heap (.ref a) =
      JsVal.obj [(k, JsVal.str "[Circular Reference]")] := by
  unfold SafeStr.safeStringify
  show SafeStr.stringifyV heap (100 + 1) [] (.ref a) = _
  unfold SafeStr.stringifyV
  simp only [List.mem_nil_iff, if_false, hheap]
  show JsVal.obj (SafeStr.stringifyFieldsAux
    (SafeStr.stringifyV heap (99 + 1) (a :: [])) 1 0 [(k, .ref a)]) = _
  unfold SafeStr.stringifyFieldsAux
  simp only [SafeStr.HVal.isFuncH, hk, Bool.or_false, if_false]
  unfold SafeStr.stringifyV
  simp
  rfl

/-- Witness for C10 at a concrete input: the one-object cyclic heap. -/
theorem c10_witness :
    SafeStr.safeStringify cyclicHeap (.ref 0) =
      JsVal.obj [("self", JsVal.str "[Circular Reference]")] :=
  c10_circular_guard cyclicHeap 0 "self" rfl rfl

end FnTrace

namespace FnTrace
namespace Inline

theorem baseInfo_callId (records : List CallRecord) (k : String) :
    (baseInfo records k).callId = k := by
  unfold baseInfo
  cases hf : records.reverse.find? (fun r => r.id == k) with
  | none => rfl
  | some q =>
    have : q.id = k := by simpa using List.find?_some hf
    simp [nodeOfRecord, this]

theorem info_mem_resolve_self (records : List CallRecord) (fuel : Nat)
    (k : String) :
    baseInfo records k ∈ nodeInfos (resolveNode records fuel k) := by
  cases fuel with
  | zero => rw [resolveNode, nodeInfos]; exact List.mem_cons_self _ _
  | succ f => rw [resolveNode, nodeInfos]; exact List.mem_cons_self _ _

theorem mem_forestInfos_of_mem {x : NodeInfo} {t : TreeNode}
    {ts : List TreeNode} (ht : t ∈ ts) (hx : x ∈ nodeInfos t) :
    x ∈ forestInfos ts := by
  induction ts with
  | nil => simp at ht
  | cons a as ih =>
    rw [forestInfos]
    rcases List.mem_cons.mp ht with h | h
    · exact List.mem_append.mpr (Or.inl (h ▸ hx))
    · exact List.mem_append.mpr (Or.inr (ih h))

theorem chain_mem {records : List CallRecord} {k kend : String} {m : Nat}
    (hch : ChainTo records k kend m) :
    ∀ fuel, m ≤ fuel →
      baseInfo records kend ∈ nodeInfos (resolveNode records fuel k) := by
  induction hch with
  | refl k => intro fuel _; exact info_mem_resolve_self records fuel k
  | head hr hc ih =>
    rename_i k k1 kend m
    intro fuel hm
    cases fuel with
    | zero => omega
    | succ f =>
      obtain ⟨r, hrm, hpar, hid⟩ := hr
      have hx := ih f (by omega)
      rw [resolveNode, nodeInfos]
      apply List.mem_cons_of_mem
      apply mem_forestInfos_of_mem
        (List.mem_map_of_mem _ (List.mem_filter.mpr ⟨hrm, by simp [hpar]⟩))
      rw [hid]
      exact hx

theorem chain_snoc {records : List CallRecord} {k mid kend : String}
    {m : Nat} (hch : ChainTo records k mid m)
    (hstep : ∃ r ∈ records, r.parentId = some mid ∧ r.id = kend) :
    ChainTo records k kend (m + 1) := by
  induction hch with
  | refl k => exact ChainTo.head hstep (ChainTo.refl _)
  | head hr hc ih => exact ChainTo.head hr (ih hstep)

theorem to_root (records : List CallRecord) (rank : String → Nat)
    (Hrank : ∀ r ∈ records, ∀ pid, r.parentId = some pid →
      ∀ q ∈ records, q.id = pid → rank pid < rank r.id) :
    ∀ n, ∀ r ∈ records, rank r.id = n →
      ∃ r0 ∈ rootRecs records, ∃ m, ChainTo records r0.id r.id m ∧
        rank r0.id + m ≤ rank r.id := by
  intro n
  induction n using Nat.strong_induction_on with
  | _ n ih =>
    intro r hr hn
    cases hpar : r.parentId with
    | none =>
      exact ⟨r, List.mem_filter.mpr ⟨hr, by simp [rootRecs, hpar]⟩, 0,
        ChainTo.refl _, by omega⟩
    | some pid =>
      by_cases hq : ∃ q ∈ records, q.id = pid
      · obtain ⟨q, hqm, hqid⟩ := hq
        have hlt : rank pid < rank r.id := Hrank r hr pid hpar q hqm hqid
        obtain ⟨r0, hr0, m, hch, hb⟩ :=
          ih (rank q.id) (by rw [hqid, hn] at *; omega) q hqm rfl
        refine ⟨r0, hr0, m + 1,
          chain_snoc hch ⟨r, hr, by rw [hpar, hqid], rfl⟩, ?_⟩
        rw [hqid] at hb
        omega
      · push_neg at hq
        refine ⟨r, List.mem_filter.mpr ⟨hr, ?_⟩, 0, ChainTo.refl _, by omega⟩
        show (match r.parentId with
          | none => true
          | some p => !(records.any (fun q => q.id == p))) = true
        rw [hpar]
        show (!records.any fun q => q.id == pid) = true
        have hanyf : (records.any fun q => q.id == pid) = false := by
          rw [List.any_eq_false]
          intro q hqm hb
          exact hq q hqm (by simpa using hb)
        rw [hanyf]
        rfl

theorem forestInfos_insertByStart (a : TreeNode) (l : List TreeNode)
    (x : NodeInfo) :
    x ∈ forestInfos (insertByStart a l) ↔
      x ∈ nodeInfos a ∨ x ∈ forestInfos l := by
  induction l with
  | nil =>
    simp [insertByStart, forestInfos]
  | cons y ys ih =>
    rw [insertByStart]
    split
    · simp only [forestInfos, List.mem_append, ih]
      tauto
    · simp only [forestInfos, List.mem_append]

theorem forestInfos_sortByStart (l : List TreeNode) (x : NodeInfo) :
    x ∈ forestInfos (sortByStart l) ↔ x ∈ forestInfos l := by
  induction l with
  | nil => rw [sortByStart]
  | cons t ts ih =>
    rw [sortByStart, forestInfos]
    rw [forestInfos_insertByStart]
    simp only [List.mem_append, ih]

mutual
theorem infos_sortTree (t : TreeNode) (x : NodeInfo) :
    x ∈ nodeInfos (sortTree t) ↔ x ∈ nodeInfos t :=
  match t with
  | .mk i cs => by
    rw [sortTree, nodeInfos, nodeInfos]
    simp only [List.mem_cons, forestInfos_sortByStart,
      infos_sortForest cs x]
theorem infos_sortForest (l : List TreeNode) (x : NodeInfo) :
    x ∈ forestInfos (sortForest l) ↔ x ∈ forestInfos l :=
  match l with
  | [] => by rw [sortForest]
  | t :: ts => by
    rw [sortForest, forestInfos, forestInfos]
    simp only [List.mem_append, infos_sortTree t x, infos_sortForest ts x]
end

theorem baseInfo_eq (records : List CallRecord)
    (hnd : (records.map (fun r => r.id)).Nodup) (r : CallRecord)
    (hr : r ∈ records) : baseInfo records r.id = nodeOfRecord r := by
  unfold baseInfo
  cases hf : records.reverse.find? (fun q => q.id == r.id) with
  | none =>
    exfalso
    rw [List.find?_eq_none] at hf
    exact hf r (List.mem_reverse.mpr hr) (by simp)
  | some q =>
    have hq : q ∈ records := List.mem_reverse.mp (List.mem_of_find?_eq_some hf)
    have hqid : q.id = r.id := by simpa using List.find?_some hf
    rw [uniqueById hnd hq hr hqid]

end Inline

/-! ## Claim C5 -/

/-- Claim C5, as stated, is false in its "no record absent" part: after a
duplicate finalization the record set holds two records with id `"X"`
(the original `f` and the synthetic supplement), the node map keeps only
the node of the last one, and the built tree contains no node presenting
the record `f` — every node in the tree is named `unknown()`. -/
theorem c5_counterexample :
    (∃ r ∈ Inline.allRecordsOf sDupExit 3, r.id = "X" ∧ r.name = "f") ∧
    (∀ info ∈ forestInfos (Inline.buildCallTree sDupExit 3),
      ¬(info.name = "f" ++ "()")) := by
  constructor
  · exact ⟨(Inline.allRecordsOf sDupExit 3).get ⟨0, by decide⟩,
      List.get_mem _ _ _, by decide, by decide⟩
  · decide

/-- Claim C5 (amended): for record sets as the engine produces them
without duplicate finalizations — distinct ids and well-founded parent
links, witnessed by a rank function — every orphan (non-null `parentId`
absent from the id map) is promoted to a root of the built forest, and no
record is absent from the built tree: a node presenting exactly the
record's data appears in the output of the builder. -/
theorem c5_no_record_dropped (records : List CallRecord) (now : Int)
    (rank : String → Nat)
    (Hrank : ∀ r ∈ records, ∀ pid, r.parentId = some pid →
      ∀ q ∈ records, q.id = pid → rank pid < rank r.id)
    (Hbound : ∀ r ∈ records, rank r.id < records.length)
    (hnd : (records.map (fun r => r.id)).Nodup) :
    ∀ r ∈ records,
      (∀ pid, r.parentId = some pid →
        (records.any (fun q => q.id == pid)) = false →
        Inline.resolveNode records records.length r.id ∈
          Inline.rootNodesOf records) ∧
      nodeOfRecord r ∈ forestInfos (Inline.buildForest records now) := by
  intro r hr
  constructor
  · intro pid hpid hany
    apply List.mem_map_of_mem
    apply List.mem_filter.mpr
    refine ⟨hr, ?_⟩
    show (match r.parentId with
      | none => true
      | some p => !(records.any (fun q => q.id == p))) = true
    rw [hpid]
    show (!records.any fun q => q.id == pid) = true
    rw [hany]
    rfl
  · obtain ⟨r0, hr0, m, hch, hb⟩ :=
      Inline.to_root records rank Hrank (rank r.id) r hr rfl
    have hm : m ≤ records.length := by
      have := Hbound r hr
      omega
    have hx : Inline.baseInfo records r.id ∈
        nodeInfos (Inline.resolveNode records records.length r0.id) :=
      Inline.chain_mem hch records.length hm
    rw [Inline.baseInfo_eq records hnd r hr] at hx
    have h1 : nodeOfRecord r ∈ forestInfos (Inline.rootNodesOf records) :=
      Inline.mem_forestInfos_of_mem (List.mem_map_of_mem _ hr0) hx
    have h2 : nodeOfRecord r ∈ forestInfos
        (Inline.sortByStart (Inline.sortForest (Inline.rootNodesOf records))) :=
      (Inline.forestInfos_sortByStart _ _).mpr
        ((Inline.infos_sortForest _ _).mpr h1)
    unfold Inline.buildForest
    have hne : records.isEmpty = false := by
      cases hrec : records with
      | nil => rw [hrec] at hr; simp at hr
      | cons a as => rfl
    rw [hne]
    simp only [Bool.false_eq_true, if_false]
    have hrne : (Inline.sortByStart
        (Inline.sortForest (Inline.rootNodesOf records))).isEmpty = false := by
      have hpos : 0 < (Inline.sortByStart
          (Inline.sortForest (Inline.rootNodesOf records))).length := by
        rw [Inline.length_sortByStart, Inline.length_sortForest]
        unfold Inline.rootNodesOf
        rw [List.length_map]
        exact List.length_pos.mpr
          (fun hnil => by rw [hnil] at hr0; simp at hr0)
      cases hl : Inline.sortByStart
          (Inline.sortForest (Inline.rootNodesOf records)) with
      | nil => rw [hl] at hpos; simp at hpos
      | cons a as => rfl
    rw [hrne]
    simp only [Bool.false_eq_true, if_false]
    split
    · exact h2
    · show nodeOfRecord r ∈ forestInfos [Inline.virtualRoot _]
      unfold Inline.virtualRoot
      rw [forestInfos, nodeInfos]
      refine List.mem_append.mpr (Or.inl (List.mem_cons_of_mem _ h2))

/-- Witness for C5 at a concrete input: the single finalized record is
presented by a node of the forest built from the history of
`sFinalized`. -/
theorem c5_witness :
    nodeOfRecord (sFinalized.callHistory.get ⟨0, by decide⟩) ∈
      forestInfos (Inline.buildForest sFinalized.callHistory 5) := by
  have h := c5_no_record_dropped sFinalized.callHistory 5 (fun _ => 0)
    (by
      intro r hr pid hpid q hq hqid
      rw [List.mem_singleton.mp hr] at hpid
      exact Option.noConfusion hpid)
    (fun r hr => Nat.zero_lt_one)
    (by decide)
    (sFinalized.callHistory.get ⟨0, by decide⟩) (List.get_mem _ _ _)
  exact h.2

end FnTrace
